import Mathlib

/-!
Verification of the rustcore microkernel core subsystems against their
natural-language specification.  The Rust sources are shallowly embedded:
pure functions become Lean functions, stateful kernel objects become
explicit state passing, machine integers become `Nat` with explicit
wrap-around where the source can overflow, and fallible operations return
`Option` or `Except`.

Embedded modules (source file in parentheses):
* `Rustcore.Bootproto`  — the loader/kernel handoff record (src/bootproto/src/lib.rs)
* `Rustcore.Arch`       — interrupt flag state and trap handler event order
                          (src/kernel/src/arch/x86_64/mod.rs)
* `Rustcore.Sync`       — the interrupt-masking lock (src/kernel/src/sync.rs)
* `Rustcore.Memory`     — the physical frame allocator (src/kernel/src/memory.rs)
* `Rustcore.Channel`    — the bounded message channel (src/ipc/src/channel.rs)
* `Rustcore.Scheduler`  — the cooperative FIFO scheduler (src/kernel/src/scheduler.rs)
* `Rustcore.Bootfs`     — the bootfs archive iterator and manifest validator
                          (src/services/init/src/bootfs.rs)
-/

set_option maxRecDepth 8000

namespace Rustcore

/-! ## Bootproto (src/bootproto/src/lib.rs) -/

namespace Bootproto

/-- `pub const BOOTINFO_VERSION: u16 = 1;` -/
def BOOTINFO_VERSION : Nat := 1

/-- `MemoryRange { base: u64, length: u64 }` (values as `Nat`, already reduced mod 2^64 by the loader). -/
structure MemoryRange where
  base : Nat
  length : Nat
deriving DecidableEq

/-- `PointerRange<T> { base: u64, len: u64 }`; the phantom marker carries no data. -/
structure PointerRange where
  base : Nat
  len : Nat
deriving DecidableEq

/-- `BootInfo` handoff record; `kernel_digest` is the 32-byte SHA-256 field. -/
structure BootInfo where
  version : Nat
  flags : Nat
  stack_top : Nat
  memory_map : PointerRange
  rsdp : Nat
  bootfs : MemoryRange
  kernel_digest : List Nat
deriving DecidableEq

/-- `BootInfo::is_compatible`: `self.version == BOOTINFO_VERSION`. -/
def BootInfo.is_compatible (b : BootInfo) : Bool :=
  b.version == BOOTINFO_VERSION

end Bootproto

/-! ## Arch: interrupt flag and trap handlers (src/kernel/src/arch/x86_64/mod.rs) -/

namespace Arch

/-- The CPU state visible to the lock claims: the IF flag read by
`interrupts_enabled` and written by `sti`/`cli`. -/
structure Cpu where
  intf : Bool
deriving DecidableEq

/-- `interrupts_enabled()`: reads RFLAGS bit 9. -/
def interrupts_enabled (c : Cpu) : Bool := c.intf

/-- `enable_interrupts()`: `sti`. -/
def enable_interrupts (_ : Cpu) : Cpu := ⟨true⟩

/-- `disable_interrupts()`: `cli`. -/
def disable_interrupts (_ : Cpu) : Cpu := ⟨false⟩

/-- Observable events performed by the two interrupt handlers, in program order. -/
inductive TrapEvent where
  | tick_increment
  | timer_callback
  | ack_timer
  | ipc_callback
  | ack_ipc
deriving DecidableEq

/-- `timer_trap`: increments `TIMER_TICKS`, then dispatches the registered
timer callback when one is stored, then calls `acknowledge(Timer)`.
`callback_registered` abstracts `load_callback(&TIMER_CALLBACK).is_some()`. -/
def timer_trap (callback_registered : Bool) : List TrapEvent :=
  [TrapEvent.tick_increment]
    ++ (if callback_registered then [TrapEvent.timer_callback] else [])
    ++ [TrapEvent.ack_timer]

/-- `ipc_trap`: dispatches the registered IPC callback when one is stored,
then calls `acknowledge(Ipc)`. -/
def ipc_trap (callback_registered : Bool) : List TrapEvent :=
  (if callback_registered then [TrapEvent.ipc_callback] else [])
    ++ [TrapEvent.ack_ipc]

end Arch

/-! ## Sync: interrupt-masking lock (src/kernel/src/sync.rs) -/

namespace Sync

/-- The data recorded in a `SpinLockGuard` that matters to the interrupt
flag contract: the sampled pre-acquisition flag. -/
structure SpinLockGuard where
  interrupts_were_enabled : Bool
deriving DecidableEq

/-- `SpinLock::lock`: sample the interrupt flag; if it was enabled, disable
interrupts; record the sampled value in the guard. -/
def lock (c : Arch.Cpu) : SpinLockGuard × Arch.Cpu :=
  let interrupts_were_enabled := Arch.interrupts_enabled c
  let c2 := if interrupts_were_enabled then Arch.disable_interrupts c else c
  (⟨interrupts_were_enabled⟩, c2)

/-- `SpinLockGuard::drop`: if the recorded flag was enabled, re-enable
interrupts. -/
def guardDrop (g : SpinLockGuard) (c : Arch.Cpu) : Arch.Cpu :=
  if g.interrupts_were_enabled then Arch.enable_interrupts c else c

end Sync

/-! ## Memory: physical frame allocator (src/kernel/src/memory.rs) -/

namespace Memory

def FRAME_SIZE_BYTES : Nat := 4096
def TOTAL_FRAMES : Nat := 128
def BOOT_RESERVED_FRAMES : Nat := 4

inductive FrameState where
  | Free
  | Reserved
deriving DecidableEq

/-- `FrameAllocator { map: [FrameState; TOTAL_FRAMES], next_search_idx: usize }`. -/
structure FrameAllocator where
  map : List FrameState
  next_search_idx : Nat
deriving DecidableEq

/-- `FrameAllocator::new`. -/
def FrameAllocator.new : FrameAllocator :=
  ⟨List.replicate TOTAL_FRAMES FrameState.Free, 0⟩

/-- `FrameAllocator::reset`. -/
def FrameAllocator.reset (_ : FrameAllocator) (s : FrameState) : FrameAllocator :=
  ⟨List.replicate TOTAL_FRAMES s, 0⟩

/-- `FrameAllocator::mark_range`: write `state` to indices
`start.min(TOTAL_FRAMES) .. end.min(TOTAL_FRAMES)`. -/
def FrameAllocator.mark_range (a : FrameAllocator) (start e : Nat) (s : FrameState) : FrameAllocator :=
  let lo := min start TOTAL_FRAMES
  let hi := min e TOTAL_FRAMES
  ⟨(List.range' lo (hi - lo)).foldl (fun m i => m.set i s) a.map, a.next_search_idx⟩

/-- `FrameAllocator::reserve_range` (`start.saturating_add(len)` never
overflows in the `Nat` model). -/
def FrameAllocator.reserve_range (a : FrameAllocator) (start len : Nat) : FrameAllocator :=
  a.mark_range start (start + len) FrameState.Reserved

/-- `memory::init(None)`: reset every frame to `Free`, then reserve the
`BOOT_RESERVED_FRAMES` low frames. -/
def initNoHandoff : FrameAllocator :=
  (FrameAllocator.new.reset FrameState.Free).reserve_range 0 BOOT_RESERVED_FRAMES

/-- `FrameAllocator::allocate_frame`: scan offsets `0..TOTAL_FRAMES` from
`next_search_idx` modulo `TOTAL_FRAMES`; reserve and return the first free
index, advancing the cursor one past it.  The returned frame number is the
index (always `< TOTAL_FRAMES`, so the `u16` cast in the source is exact). -/
def FrameAllocator.allocate_frame (a : FrameAllocator) : Option (Nat × FrameAllocator) :=
  match (List.range TOTAL_FRAMES).find?
      (fun off => a.map.getD ((a.next_search_idx + off) % TOTAL_FRAMES) FrameState.Reserved
        == FrameState.Free) with
  | some off =>
    let idx := (a.next_search_idx + off) % TOTAL_FRAMES
    some (idx, ⟨a.map.set idx FrameState.Reserved, (idx + 1) % TOTAL_FRAMES⟩)
  | none => none

/-- `FrameAllocator::release_frame`: out-of-range frame numbers fail; a
`Free` slot fails (double free); a `Reserved` slot is flipped to `Free`.
Returns the success flag together with the (possibly unchanged) state. -/
def FrameAllocator.release_frame (a : FrameAllocator) (frame : Nat) : Bool × FrameAllocator :=
  if TOTAL_FRAMES ≤ frame then (false, a)
  else
    match a.map.getD frame FrameState.Free with
    | FrameState.Free => (false, a)
    | FrameState.Reserved => (true, ⟨a.map.set frame FrameState.Free, a.next_search_idx⟩)

/-- Runs `n` successive `allocate_frame` calls, collecting each result. -/
def allocN : FrameAllocator → Nat → List (Option Nat) × FrameAllocator
  | a, 0 => ([], a)
  | a, n + 1 =>
    match a.allocate_frame with
    | some (f, a2) =>
      let r := allocN a2 n
      (some f :: r.1, r.2)
    | none =>
      let r := allocN a n
      (none :: r.1, r.2)

end Memory

/-! ## Channel: bounded message channel (src/ipc/src/channel.rs) -/

namespace Channel

def MAX_MESSAGES : Nat := 16
def MAX_PAYLOAD : Nat := 64

/-- `Message { len: u8, payload: [u8; MAX_PAYLOAD] }`; payload bytes are
`Nat` values `< 256`, the list always has length `MAX_PAYLOAD`. -/
structure Message where
  len : Nat
  payload : List Nat
deriving DecidableEq

/-- `Message::empty`. -/
def Message.emptyMsg : Message :=
  ⟨0, List.replicate MAX_PAYLOAD 0⟩

inductive SendError where
  | Full
  | Oversized
  | Unroutable
deriving DecidableEq

inductive ReceiveError where
  | Empty
deriving DecidableEq

/-- `Message::from_slice`: reject payloads longer than `MAX_PAYLOAD`;
otherwise the copy loop overwrites the first `bytes.len()` bytes of the
zero-initialized payload, leaving `bytes ++ zeros`, and sets `len`. -/
def Message.from_slice (bytes : List Nat) : Except SendError Message :=
  if MAX_PAYLOAD < bytes.length then Except.error SendError.Oversized
  else Except.ok ⟨bytes.length, bytes ++ List.replicate (MAX_PAYLOAD - bytes.length) 0⟩

/-- `Message::write_into`: copy `min(len, buffer.len())` payload bytes into
the front of the buffer; returns the updated buffer and the copy count. -/
def Message.write_into (m : Message) (buffer : List Nat) : List Nat × Nat :=
  let copy_len := min m.len buffer.length
  (m.payload.take copy_len ++ buffer.drop copy_len, copy_len)

/-- `QueueSlot { message, used }`. -/
structure QueueSlot where
  message : Message
  used : Bool
deriving DecidableEq

/-- `QueueSlot::empty`. -/
def QueueSlot.emptySlot : QueueSlot :=
  ⟨Message.emptyMsg, false⟩

/-- `MessageQueue { slots: [QueueSlot; MAX_MESSAGES], head, tail, len }`. -/
structure MessageQueue where
  slots : List QueueSlot
  head : Nat
  tail : Nat
  len : Nat
deriving DecidableEq

/-- `MessageQueue::new`. -/
def MessageQueue.new : MessageQueue :=
  ⟨List.replicate MAX_MESSAGES QueueSlot.emptySlot, 0, 0, 0⟩

/-- `MessageQueue::push`: fail with `Full` at capacity; otherwise store the
message in the tail slot, mark it used, advance `tail` modulo capacity and
bump `len`.  On error the queue is unchanged (the source returns early). -/
def MessageQueue.push (q : MessageQueue) (message : Message) : Except SendError MessageQueue :=
  if q.len = MAX_MESSAGES then Except.error SendError.Full
  else Except.ok
    ⟨q.slots.set q.tail ⟨message, true⟩, q.head, (q.tail + 1) % MAX_MESSAGES, q.len + 1⟩

/-- `MessageQueue::pop`: fail with `Empty` when `len == 0`; otherwise clear
the head slot's `used` flag, advance `head` modulo capacity, decrement
`len`, and copy the head message into the buffer via `write_into`.
Returns the new queue, the updated buffer and the byte count. -/
def MessageQueue.pop (q : MessageQueue) (buffer : List Nat) :
    Except ReceiveError (MessageQueue × List Nat × Nat) :=
  if q.len = 0 then Except.error ReceiveError.Empty
  else
    let slot := q.slots.getD q.head QueueSlot.emptySlot
    let q2 : MessageQueue :=
      ⟨q.slots.set q.head ⟨slot.message, false⟩, (q.head + 1) % MAX_MESSAGES, q.tail, q.len - 1⟩
    let r := slot.message.write_into buffer
    Except.ok (q2, r.1, r.2)

/-- `Channel::send`: build the message with `from_slice` (propagating
`Oversized`), then `push` under the channel lock. -/
def send (q : MessageQueue) (bytes : List Nat) : Except SendError MessageQueue :=
  match Message.from_slice bytes with
  | Except.error e => Except.error e
  | Except.ok m => q.push m

/-- `Channel::receive`: `pop` under the channel lock. -/
def receive (q : MessageQueue) (buffer : List Nat) :
    Except ReceiveError (MessageQueue × List Nat × Nat) :=
  q.pop buffer

/-- One channel operation of a client trace: a `send` of a payload or a
`receive` into a zeroed buffer of the given length. -/
inductive ChanOp where
  | send (bytes : List Nat)
  | recv (buflen : Nat)
deriving DecidableEq

/-- The observable outcome of one operation.  For a successful receive,
`bytes` is the byte string the call produced (the prefix of the buffer it
wrote) and `count` the returned length. -/
inductive ChanResult where
  | sendOk
  | sendErr (e : SendError)
  | recvOk (bytes : List Nat) (count : Nat)
  | recvErr (e : ReceiveError)
deriving DecidableEq

/-- Runs a trace of channel operations against a queue state, collecting
the per-operation results. -/
def runChannel : MessageQueue → List ChanOp → MessageQueue × List ChanResult
  | q, [] => (q, [])
  | q, ChanOp.send bytes :: rest =>
    match send q bytes with
    | Except.ok q2 =>
      let r := runChannel q2 rest
      (r.1, ChanResult.sendOk :: r.2)
    | Except.error e =>
      let r := runChannel q rest
      (r.1, ChanResult.sendErr e :: r.2)
  | q, ChanOp.recv n :: rest =>
    match receive q (List.replicate n 0) with
    | Except.ok (q2, buf, count) =>
      let r := runChannel q2 rest
      (r.1, ChanResult.recvOk (buf.take count) count :: r.2)
    | Except.error e =>
      let r := runChannel q rest
      (r.1, ChanResult.recvErr e :: r.2)

/-- The payloads passed to `send`, in trace order. -/
def sentPayloads (ops : List ChanOp) : List (List Nat) :=
  ops.filterMap fun op =>
    match op with
    | ChanOp.send b => some b
    | _ => none

/-- The receiving buffer lengths, in trace order. -/
def recvBufLens (ops : List ChanOp) : List Nat :=
  ops.filterMap fun op =>
    match op with
    | ChanOp.recv n => some n
    | _ => none

/-- The byte strings produced by the successful receives, in trace order. -/
def receivedStrings (rs : List ChanResult) : List (List Nat) :=
  rs.filterMap fun r =>
    match r with
    | ChanResult.recvOk bytes _ => some bytes
    | _ => none

/-- The counts returned by the successful receives, in trace order. -/
def receivedCounts (rs : List ChanResult) : List Nat :=
  rs.filterMap fun r =>
    match r with
    | ChanResult.recvOk _ count => some count
    | _ => none

end Channel

/-! ## Scheduler: cooperative FIFO scheduler (src/kernel/src/scheduler.rs) -/

namespace Scheduler

def MAX_TASKS : Nat := 16

inductive TaskState where
  | Ready
  | Running
  | Blocked
  | Completed
deriving DecidableEq

/-- `TaskControlBlock { id: TaskId(u16), entry: fn(), state }`.  Entry
points are opaque function pointers; they are modelled as identifiers. -/
structure TaskControlBlock where
  id : Nat
  entry : Nat
  state : TaskState
deriving DecidableEq

/-- `ReadyQueue { slots: [Option<TaskControlBlock>; MAX_TASKS], head, tail, next_id }`. -/
structure ReadyQueue where
  slots : List (Option TaskControlBlock)
  head : Nat
  tail : Nat
  next_id : Nat
deriving DecidableEq

/-- `ReadyQueue::new`. -/
def ReadyQueue.new : ReadyQueue :=
  ⟨List.replicate MAX_TASKS none, 0, 0, 0⟩

/-- `ReadyQueue::push`: refuse when the would-be-new tail equals the head;
otherwise store a `Ready` TCB with the next wrapping 16-bit id in the tail
slot and advance the tail. -/
def ReadyQueue.push (q : ReadyQueue) (entry : Nat) : Option (Nat × ReadyQueue) :=
  let next_tail := (q.tail + 1) % MAX_TASKS
  if next_tail = q.head then none
  else
    let id := q.next_id
    some (id, ⟨q.slots.set q.tail (some ⟨id, entry, TaskState.Ready⟩),
      q.head, next_tail, (q.next_id + 1) % 65536⟩)

/-- `ReadyQueue::pop`: empty when `head == tail`; otherwise take the head
slot (leaving `None` behind), advance the head, and mark the task
`Running`. -/
def ReadyQueue.pop (q : ReadyQueue) : Option TaskControlBlock × ReadyQueue :=
  if q.head = q.tail then (none, q)
  else
    let slot := q.slots.getD q.head none
    let q2 : ReadyQueue :=
      ⟨q.slots.set q.head none, (q.head + 1) % MAX_TASKS, q.tail, q.next_id⟩
    match slot with
    | some task => (some { task with state := TaskState.Running }, q2)
    | none => (none, q2)

/-- Number of occupied ring positions, derived from the head/tail cursors. -/
def qSize (q : ReadyQueue) : Nat :=
  (q.tail + MAX_TASKS - q.head) % MAX_TASKS

/-- `scheduler::run`: pop and execute until `pop` yields `None`, collecting
the executed TCBs in order.  The source loop runs unboundedly; since the
ring holds at most `MAX_TASKS - 1` tasks and (absent re-registration) each
iteration consumes one, `MAX_TASKS` iterations always suffice, which the
fuel argument makes structural. -/
def runLoop : Nat → ReadyQueue → List TaskControlBlock × ReadyQueue
  | 0, q => ([], q)
  | fuel + 1, q =>
    match q.pop with
    | (none, q2) => ([], q2)
    | (some tcb, q2) =>
      let r := runLoop fuel q2
      (tcb :: r.1, r.2)

/-- `scheduler::run` on a queue of non-re-registering tasks. -/
def run (q : ReadyQueue) : List TaskControlBlock × ReadyQueue :=
  runLoop MAX_TASKS q

/-- A sequence of `register` calls: pushes every entry in order, collecting
each returned id (or `none` for a refused registration). -/
def pushAll : ReadyQueue → List Nat → List (Option Nat) × ReadyQueue
  | q, [] => ([], q)
  | q, e :: rest =>
    match q.push e with
    | some (id, q2) =>
      let r := pushAll q2 rest
      (some id :: r.1, r.2)
    | none =>
      let r := pushAll q rest
      (none :: r.1, r.2)

end Scheduler

/-! ## Bootfs: archive iterator and manifest validator
(src/services/init/src/bootfs.rs).  The extent contents are modelled as the
byte list `data`; strings are modelled as lists of Unicode scalar values. -/

namespace Bootfs

def HEADER_LEN : Nat := 8

/-- `MAGIC = b"RCFS"`. -/
def MAGIC : List Nat := [82, 67, 70, 83]

/-- `u16::from_le_bytes`. -/
def u16le (b0 b1 : Nat) : Nat := b0 + 256 * b1

/-- `u32::from_le_bytes`. -/
def u32le (b0 b1 b2 b3 : Nat) : Nat := b0 + 256 * b1 + 65536 * b2 + 16777216 * b3

/-- `str::from_utf8` / UTF-8 decoding to Unicode scalar values, with the
exact validity rules of Rust (rejecting continuation-byte leads, overlong
encodings, surrogates, and values above U+10FFFF). -/
def decodeUtf8 : List Nat → Option (List Nat)
  | [] => some []
  | b0 :: rest =>
    if b0 < 128 then
      match decodeUtf8 rest with
      | some t => some (b0 :: t)
      | none => none
    else if b0 < 194 then none
    else if b0 < 224 then
      match rest with
      | b1 :: r =>
        if 128 ≤ b1 ∧ b1 < 192 then
          match decodeUtf8 r with
          | some t => some (((b0 - 192) * 64 + (b1 - 128)) :: t)
          | none => none
        else none
      | [] => none
    else if b0 < 240 then
      match rest with
      | b1 :: b2 :: r =>
        if (if b0 = 224 then 160 ≤ b1 ∧ b1 < 192
            else if b0 = 237 then 128 ≤ b1 ∧ b1 < 160
            else 128 ≤ b1 ∧ b1 < 192) ∧ 128 ≤ b2 ∧ b2 < 192 then
          match decodeUtf8 r with
          | some t => some (((b0 - 224) * 4096 + (b1 - 128) * 64 + (b2 - 128)) :: t)
          | none => none
        else none
      | _ => none
    else if b0 < 245 then
      match rest with
      | b1 :: b2 :: b3 :: r =>
        if (if b0 = 240 then 144 ≤ b1 ∧ b1 < 192
            else if b0 = 244 then 128 ≤ b1 ∧ b1 < 144
            else 128 ≤ b1 ∧ b1 < 192) ∧ 128 ≤ b2 ∧ b2 < 192 ∧ 128 ≤ b3 ∧ b3 < 192 then
          match decodeUtf8 r with
          | some t =>
            some (((b0 - 240) * 262144 + (b1 - 128) * 4096 + (b2 - 128) * 64 + (b3 - 128)) :: t)
          | none => none
        else none
      | _ => none
    else none

/-- `BootfsEntry { name: &str, data: &[u8] }`; the name as decoded Unicode
scalar values, the payload as bytes. -/
structure BootfsEntry where
  name : List Nat
  data : List Nat
deriving DecidableEq

/-- `BootfsIter` cursor state (`data` is passed alongside). -/
structure BootfsIter where
  offset : Nat
  remaining : Nat
deriving DecidableEq

/-- `BootfsIter::new`: require at least a full header, the `RCFS` magic and
version 1; start at offset `HEADER_LEN` with the declared entry count. -/
def BootfsIter.new (data : List Nat) : Option BootfsIter :=
  if data.length < HEADER_LEN then none
  else if data.take 4 ≠ MAGIC then none
  else if u16le (data.getD 4 0) (data.getD 5 0) ≠ 1 then none
  else some ⟨HEADER_LEN, u16le (data.getD 6 0) (data.getD 7 0)⟩

/-- `BootfsIter::next`: each header, name and data read is preceded by a
bounds check against `data.len()`; a check failure ends iteration.  A name
that is not valid UTF-8 also ends iteration (`str::from_utf8(..).ok()?`). -/
def BootfsIter.next (data : List Nat) (it : BootfsIter) : Option (BootfsEntry × BootfsIter) :=
  if it.remaining = 0 then none
  else if data.length < it.offset + 2 then none
  else
    let name_len := u16le (data.getD it.offset 0) (data.getD (it.offset + 1) 0)
    let o1 := it.offset + 2
    if data.length < o1 + name_len then none
    else
      let name_bytes := (data.drop o1).take name_len
      let o2 := o1 + name_len
      if data.length < o2 + 4 then none
      else
        let size := u32le (data.getD o2 0) (data.getD (o2 + 1) 0)
          (data.getD (o2 + 2) 0) (data.getD (o2 + 3) 0)
        let o3 := o2 + 4
        if data.length < o3 + size then none
        else
          let payload := (data.drop o3).take size
          match decodeUtf8 name_bytes with
          | some name => some (⟨name, payload⟩, ⟨o3 + size, it.remaining - 1⟩)
          | none => none

/-- `BootfsIter::next` with every memory access instrumented: before each
byte or slice read an explicit range check yields `error ()` if the
access would fall outside `[0, data.length)`, and the value read is the
one `next` reads.  Agreement with `next` (proved below) shows every read
is covered by a preceding bounds check of the source. -/
def BootfsIter.nextInstr (data : List Nat) (it : BootfsIter) :
    Except Unit (Option (BootfsEntry × BootfsIter)) :=
  if it.remaining = 0 then Except.ok none
  else if data.length < it.offset + 2 then Except.ok none
  else if data.length ≤ it.offset then Except.error ()
  else if data.length ≤ it.offset + 1 then Except.error ()
  else
    let name_len := u16le (data.getD it.offset 0) (data.getD (it.offset + 1) 0)
    let o1 := it.offset + 2
    if data.length < o1 + name_len then Except.ok none
    else if data.length < o1 + name_len then Except.error ()
    else
      let name_bytes := (data.drop o1).take name_len
      let o2 := o1 + name_len
      if data.length < o2 + 4 then Except.ok none
      else if data.length ≤ o2 then Except.error ()
      else if data.length ≤ o2 + 1 then Except.error ()
      else if data.length ≤ o2 + 2 then Except.error ()
      else if data.length ≤ o2 + 3 then Except.error ()
      else
        let size := u32le (data.getD o2 0) (data.getD (o2 + 1) 0)
          (data.getD (o2 + 2) 0) (data.getD (o2 + 3) 0)
        let o3 := o2 + 4
        if data.length < o3 + size then Except.ok none
        else if data.length < o3 + size then Except.error ()
        else
          let payload := (data.drop o3).take size
          match decodeUtf8 name_bytes with
          | some name => Except.ok (some (⟨name, payload⟩, ⟨o3 + size, it.remaining - 1⟩))
          | none => Except.ok none

/-- Drains the iterator; the fuel is the declared entry count, which
bounds the number of successful `next` calls since `remaining` decreases
by one at each produced entry. -/
def collectFuel (data : List Nat) : Nat → BootfsIter → List BootfsEntry
  | 0, _ => []
  | fuel + 1, it =>
    match BootfsIter.next data it with
    | none => []
    | some (e, it2) => e :: collectFuel data fuel it2

/-- `BootfsView::entries` followed by full iteration: all entries the
iterator yields, in order ([] when the header is rejected). -/
def entriesOf (data : List Nat) : List BootfsEntry :=
  match BootfsIter.new data with
  | none => []
  | some it => collectFuel data it.remaining it

/-- `BootfsView::find_entry`: the data of the first entry whose name
matches (the source's `while let` loop returns on the first match). -/
def find_entry (data : List Nat) (name : List Nat) : Option (List Nat) :=
  ((entriesOf data).find? (fun e => decide (e.name = name))).map BootfsEntry.data

/-- Rust `char::is_whitespace` (the Unicode `White_Space` set). -/
def isRustWhitespace (c : Nat) : Bool :=
  decide ((9 ≤ c ∧ c ≤ 13) ∨ c = 32 ∨ c = 133 ∨ c = 160 ∨ c = 5760 ∨
    (8192 ≤ c ∧ c ≤ 8202) ∨ c = 8232 ∨ c = 8233 ∨ c = 8239 ∨ c = 8287 ∨ c = 12288)

/-- Rust `str::trim`. -/
def trimChars (s : List Nat) : List Nat :=
  ((s.dropWhile isRustWhitespace).reverse.dropWhile isRustWhitespace).reverse

/-- Rust `str::split(sep)`: always yields at least one (possibly empty)
piece. -/
def splitOnChar (c : Nat) : List Nat → List (List Nat)
  | [] => [[]]
  | b :: rest =>
    if b = c then [] :: splitOnChar c rest
    else
      match splitOnChar c rest with
      | [] => [[b]]
      | p :: ps => (b :: p) :: ps

/-- Drops one trailing carriage return (`lines` recognizes `\r\n`). -/
def stripTrailingCr (l : List Nat) : List Nat :=
  if l.getLast? = some 13 then l.dropLast else l

/-- Rust `str::lines`: split at `\n`, dropping the final empty piece left
by a trailing newline, and stripping one `\r` before each `\n`. -/
def rustLines (s : List Nat) : List (List Nat) :=
  let parts := splitOnChar 10 s
  let withNl := parts.dropLast.map stripTrailingCr
  match parts.getLast? with
  | some [] => withNl
  | some lastPart => withNl ++ [lastPart]
  | none => withNl

/-- `ServiceDescriptor`; `caps` is the raw (trimmed) capability field the
source wraps in a `CapabilityList`. -/
structure ServiceDescriptor where
  name : List Nat
  artifact : List Nat
  entry : List Nat
  caps : List Nat
deriving DecidableEq

inductive ManifestError where
  | MissingManifest
  | Utf8
  | InvalidFormat
  | MissingArtifact
  | Empty
deriving DecidableEq

/-- `ManifestSummary { services: u32, error: Option<ManifestError> }`. -/
structure ManifestSummary where
  services : Nat
  error : Option ManifestError
deriving DecidableEq

/-- `ManifestSummary::ok`. -/
def ManifestSummary.mkOk (services : Nat) : ManifestSummary := ⟨services, none⟩

/-- `ManifestSummary::error`. -/
def ManifestSummary.mkError (e : ManifestError) : ManifestSummary := ⟨0, some e⟩

/-- `"service:"`. -/
def SERVICE_TAG : List Nat := [115, 101, 114, 118, 105, 99, 101, 58]

/-- `"services.manifest"`. -/
def MANIFEST_NAME : List Nat :=
  [115, 101, 114, 118, 105, 99, 101, 115, 46, 109, 97, 110, 105, 102, 101, 115, 116]

/-- The three mandatory fields and the capability field of a service line,
each trimmed, with the emptiness checks of `parse_service_line`. -/
def parseFields (a b c d : List Nat) : Except ManifestError ServiceDescriptor :=
  let name := trimChars a
  let artifact := trimChars b
  let entryF := trimChars c
  let caps := trimChars d
  if name = [] ∨ artifact = [] ∨ entryF = [] then Except.error ManifestError.InvalidFormat
  else Except.ok ⟨name, artifact, entryF, caps⟩

/-- `parse_service_line`: strip the `service:` tag (wrong tag ⇒
`InvalidFormat`), split the remainder at `':'`; fewer than three or more
than four fields ⇒ `InvalidFormat`; otherwise trim the fields, requiring
name, artifact and entry to be non-empty. -/
def parse_service_line (line : List Nat) : Except ManifestError ServiceDescriptor :=
  if line.take 8 ≠ SERVICE_TAG then Except.error ManifestError.InvalidFormat
  else
    match splitOnChar 58 (line.drop 8) with
    | [] => Except.error ManifestError.InvalidFormat
    | [_] => Except.error ManifestError.InvalidFormat
    | [_, _] => Except.error ManifestError.InvalidFormat
    | [a, b, c] => parseFields a b c []
    | [a, b, c, d] => parseFields a b c d
    | _ => Except.error ManifestError.InvalidFormat

/-- `u32::saturating_add`. -/
def satAdd32 (a b : Nat) : Nat := min (a + b) 4294967295

/-- The per-line loop of `validate_manifest`: skip blank and `#` lines;
a parse failure or a missing artifact ends validation with that error;
otherwise count the service (saturating) and record that one was seen. -/
def validateLines (data : List Nat) : List (List Nat) → Nat → Bool → ManifestSummary
  | [], services, has_service =>
    if has_service then ManifestSummary.mkOk services
    else ManifestSummary.mkError ManifestError.Empty
  | rawLine :: rest, services, has_service =>
    let line := trimChars rawLine
    if line = [] ∨ line.headD 0 = 35 then validateLines data rest services has_service
    else
      match parse_service_line line with
      | Except.error e => ManifestSummary.mkError e
      | Except.ok desc =>
        if desc.artifact = [] ∨ (find_entry data desc.artifact).isNone then
          ManifestSummary.mkError ManifestError.MissingArtifact
        else validateLines data rest (satAdd32 services 1) true

/-- `BootfsView::validate_manifest` over the extent bytes. -/
def validate_manifest (data : List Nat) : ManifestSummary :=
  match find_entry data MANIFEST_NAME with
  | none => ManifestSummary.mkError ManifestError.MissingManifest
  | some bytes =>
    match decodeUtf8 bytes with
    | none => ManifestSummary.mkError ManifestError.Utf8
    | some text => validateLines data (rustLines text) 0 false

end Bootfs

instance {ε α : Type} [DecidableEq ε] [DecidableEq α] : DecidableEq (Except ε α) := fun a b =>
  match a, b with
  | Except.ok x, Except.ok y =>
    if h : x = y then isTrue (by rw [h]) else isFalse (by simp [h])
  | Except.error x, Except.error y =>
    if h : x = y then isTrue (by rw [h]) else isFalse (by simp [h])
  | Except.ok _, Except.error _ => isFalse (by simp)
  | Except.error _, Except.ok _ => isFalse (by simp)

/-! # Helper lemmas -/

/-- `getD` after `set` at a different index is unchanged. -/
theorem getD_set_ne_idx {α : Type} (l : List α) (i j : Nat) (v d : α) (h : i ≠ j) :
    (l.set i v).getD j d = l.getD j d := by
  simp [List.getD_eq_getElem?_getD, List.getElem?_set_ne h]

/-- `getD` after `set` at the same in-range index reads the new value. -/
theorem getD_set_self_idx {α : Type} (l : List α) (i : Nat) (v d : α) (h : i < l.length) :
    (l.set i v).getD i d = v := by
  simp [List.getD_eq_getElem?_getD, List.getElem?_set_self, h]

/-- Two ring positions at distinct offsets below the capacity differ. -/
theorem ring_idx_ne (h i k : Nat) (hik : i < k) (hk : k < 16) :
    (h + i) % 16 ≠ (h + k) % 16 := by
  omega

namespace Channel

/-- Queue well-formedness: 16 slots, head cursor and length in range, and
the tail cursor determined by `head + len` modulo the capacity. -/
def QWF (q : MessageQueue) : Prop :=
  q.slots.length = MAX_MESSAGES ∧ q.head < MAX_MESSAGES ∧ q.len ≤ MAX_MESSAGES ∧
    q.tail = (q.head + q.len) % MAX_MESSAGES

/-- The message `from_slice` builds for an accepted payload. -/
def msgOf (p : List Nat) : Message :=
  ⟨p.length, p ++ List.replicate (MAX_PAYLOAD - p.length) 0⟩

/-- The queued messages, oldest first. -/
def absMsgs (q : MessageQueue) : List Message :=
  (List.range q.len).map fun i =>
    (q.slots.getD ((q.head + i) % MAX_MESSAGES) QueueSlot.emptySlot).message

theorem QWF_new : QWF MessageQueue.new := by
  refine ⟨by decide, by decide, by decide, by decide⟩

theorem absMsgs_new : absMsgs MessageQueue.new = [] := by decide

/-- A successful `push` appends the message to the queue abstraction. -/
theorem push_spec (q : MessageQueue) (m : Message) (q2 : MessageQueue)
    (hwf : QWF q) (h : q.push m = Except.ok q2) :
    QWF q2 ∧ absMsgs q2 = absMsgs q ++ [m] := by
  obtain ⟨hsl, hh, hlen, htail⟩ := hwf
  unfold MessageQueue.push at h
  split_ifs at h with hfull
  have hlt : q.len < MAX_MESSAGES := Nat.lt_of_le_of_ne hlen hfull
  cases h
  unfold QWF absMsgs
  unfold MAX_MESSAGES at *
  dsimp only
  constructor
  · refine ⟨by simpa using hsl, hh, by omega, by rw [htail]; omega⟩
  · rw [List.range_succ, List.map_append]
    congr 1
    · apply List.map_congr_left
      intro i hi
      have hi' : i < q.len := List.mem_range.mp hi
      have hne : q.tail ≠ (q.head + i) % 16 := by
        rw [htail]
        exact (ring_idx_ne q.head i q.len hi' (by omega)).symm
      rw [getD_set_ne_idx _ _ _ _ _ hne]
    · simp only [List.map_cons, List.map_nil]
      rw [← htail, getD_set_self_idx _ _ _ _ (by rw [hsl]; omega)]

/-- A successful `pop` removes the head message from the queue abstraction
and returns exactly the bytes `write_into` copies from it. -/
theorem pop_spec (q : MessageQueue) (buffer : List Nat) (q2 : MessageQueue)
    (buf2 : List Nat) (cnt : Nat) (hwf : QWF q)
    (h : q.pop buffer = Except.ok (q2, buf2, cnt)) :
    QWF q2 ∧
    absMsgs q =
      (q.slots.getD q.head QueueSlot.emptySlot).message :: absMsgs q2 ∧
    buf2 = ((q.slots.getD q.head QueueSlot.emptySlot).message.write_into buffer).1 ∧
    cnt = ((q.slots.getD q.head QueueSlot.emptySlot).message.write_into buffer).2 := by
  obtain ⟨hsl, hh, hlen, htail⟩ := hwf
  unfold MessageQueue.pop at h
  split_ifs at h with hzero
  cases h
  unfold QWF absMsgs
  unfold MAX_MESSAGES at *
  dsimp only
  have hmsg : ∀ j, ((q.slots.set q.head
      ⟨(q.slots.getD q.head QueueSlot.emptySlot).message, false⟩).getD j
        QueueSlot.emptySlot).message =
      (q.slots.getD j QueueSlot.emptySlot).message := by
    intro j
    by_cases hj : q.head = j
    · subst hj
      rw [getD_set_self_idx _ _ _ _ (by omega)]
    · rw [getD_set_ne_idx _ _ _ _ _ hj]
  refine ⟨?_, ?_, rfl, rfl⟩
  · refine ⟨by simpa using hsl, by omega, by omega, by rw [htail]; omega⟩
  · have hq : q.len = (q.len - 1) + 1 := by omega
    rw [hq, List.range_succ_eq_map, List.map_cons, List.map_map]
    congr 1
    · rw [Nat.add_zero, Nat.mod_eq_of_lt hh]
    · apply List.map_congr_left
      intro i _
      simp only [Function.comp]
      rw [hmsg]
      have hidx : ((q.head + 1) % 16 + i) % 16 = (q.head + Nat.succ i) % 16 := by
        omega
      rw [hidx]

/-- `from_slice` accepts exactly the payloads of length at most
`MAX_PAYLOAD` and builds `msgOf`. -/
theorem from_slice_ok (bytes : List Nat) (m : Message)
    (h : Message.from_slice bytes = Except.ok m) :
    m = msgOf bytes ∧ bytes.length ≤ MAX_PAYLOAD := by
  unfold Message.from_slice at h
  split_ifs at h with hov
  cases h
  exact ⟨rfl, by omega⟩

theorem sentPayloads_cons_send (b : List Nat) (rest : List ChanOp) :
    sentPayloads (ChanOp.send b :: rest) = b :: sentPayloads rest := by
  simp [sentPayloads]

theorem sentPayloads_cons_recv (n : Nat) (rest : List ChanOp) :
    sentPayloads (ChanOp.recv n :: rest) = sentPayloads rest := by
  simp [sentPayloads]

theorem recvBufLens_cons_send (b : List Nat) (rest : List ChanOp) :
    recvBufLens (ChanOp.send b :: rest) = recvBufLens rest := by
  simp [recvBufLens]

theorem recvBufLens_cons_recv (n : Nat) (rest : List ChanOp) :
    recvBufLens (ChanOp.recv n :: rest) = n :: recvBufLens rest := by
  simp [recvBufLens]

theorem receivedStrings_cons_sendOk (rs : List ChanResult) :
    receivedStrings (ChanResult.sendOk :: rs) = receivedStrings rs := by
  simp [receivedStrings]

theorem receivedStrings_cons_recvOk (b : List Nat) (c : Nat) (rs : List ChanResult) :
    receivedStrings (ChanResult.recvOk b c :: rs) = b :: receivedStrings rs := by
  simp [receivedStrings]

theorem receivedCounts_cons_sendOk (rs : List ChanResult) :
    receivedCounts (ChanResult.sendOk :: rs) = receivedCounts rs := by
  simp [receivedCounts]

theorem receivedCounts_cons_recvOk (b : List Nat) (c : Nat) (rs : List ChanResult) :
    receivedCounts (ChanResult.recvOk b c :: rs) = c :: receivedCounts rs := by
  simp [receivedCounts]

/-- The byte string and count a receive produces from a queued payload:
the payload truncated to `min (payload length) (buffer length)`. -/
theorem write_into_take (p : List Nat) (n : Nat) (_hp : p.length ≤ MAX_PAYLOAD) :
    (((msgOf p).write_into (List.replicate n 0)).1.take
        ((msgOf p).write_into (List.replicate n 0)).2 = p.take (min p.length n)) ∧
    ((msgOf p).write_into (List.replicate n 0)).2 = min p.length n := by
  unfold msgOf Message.write_into
  dsimp only
  rw [List.length_replicate]
  have h1 : (p ++ List.replicate (MAX_PAYLOAD - p.length) 0).take (min p.length n) =
      p.take (min p.length n) :=
    List.take_append_of_le_length (Nat.min_le_left _ _)
  refine ⟨?_, rfl⟩
  rw [h1]
  have h2 : (p.take (min p.length n)).length = min p.length n := by
    rw [List.length_take]
    omega
  rw [List.take_left' h2]

/-- Trace-level FIFO lemma, generalized over the starting queue: when
every operation in a trace succeeds, the byte strings the receives
produce are exactly the pending payloads followed by the sent payloads,
in order, each truncated to `min (payload length) (buffer length)`, and
the returned counts are those minima. -/
theorem runChannel_fifo (ops : List ChanOp) (q : MessageQueue) (pend : List (List Nat))
    (hwf : QWF q) (habs : absMsgs q = pend.map msgOf)
    (hp : ∀ p ∈ pend, p.length ≤ MAX_PAYLOAD)
    (hok : ∀ r ∈ (runChannel q ops).2,
      (∀ e, r ≠ ChanResult.sendErr e) ∧ r ≠ ChanResult.recvErr ReceiveError.Empty) :
    receivedStrings (runChannel q ops).2 =
      List.zipWith (fun p n => p.take (min p.length n)) (pend ++ sentPayloads ops)
        (recvBufLens ops) ∧
    receivedCounts (runChannel q ops).2 =
      List.zipWith (fun p n => min p.length n) (pend ++ sentPayloads ops)
        (recvBufLens ops) := by
  induction ops generalizing q pend with
  | nil =>
    simp [runChannel, receivedStrings, receivedCounts, sentPayloads, recvBufLens]
  | cons op rest ih =>
    cases op with
    | send bytes =>
      cases hsend : send q bytes with
      | error e =>
        exact absurd rfl
          ((hok (ChanResult.sendErr e) (by simp [runChannel, hsend])).1 e)
      | ok q2 =>
        have hsend' := hsend
        unfold send at hsend'
        cases hfs : Message.from_slice bytes with
        | error e => rw [hfs] at hsend'; exact absurd hsend' (by simp)
        | ok m =>
          rw [hfs] at hsend'
          obtain ⟨hm, hblen⟩ := from_slice_ok bytes m hfs
          subst hm
          obtain ⟨hwf2, habs2⟩ := push_spec q _ q2 hwf hsend'
          have habs2' : absMsgs q2 = (pend ++ [bytes]).map msgOf := by
            rw [habs2, habs, List.map_append, List.map_cons, List.map_nil]
          have hp2 : ∀ p ∈ pend ++ [bytes], p.length ≤ MAX_PAYLOAD := by
            intro p hmem
            rcases List.mem_append.mp hmem with h | h
            · exact hp p h
            · rw [List.mem_singleton.mp h]; exact hblen
          have hok2 : ∀ r ∈ (runChannel q2 rest).2,
              (∀ e, r ≠ ChanResult.sendErr e) ∧
                r ≠ ChanResult.recvErr ReceiveError.Empty := by
            intro r hr
            exact hok r (by simp [runChannel, hsend, hr])
          obtain ⟨ih1, ih2⟩ := ih q2 (pend ++ [bytes]) hwf2 habs2' hp2 hok2
          have hl : pend ++ [bytes] ++ sentPayloads rest =
              pend ++ bytes :: sentPayloads rest := by
            simp
          rw [hl] at ih1 ih2
          constructor
          · simp only [runChannel, hsend, receivedStrings_cons_sendOk,
              sentPayloads_cons_send, recvBufLens_cons_send]
            exact ih1
          · simp only [runChannel, hsend, receivedCounts_cons_sendOk,
              sentPayloads_cons_send, recvBufLens_cons_send]
            exact ih2
    | recv n =>
      cases hrecv : receive q (List.replicate n 0) with
      | error e =>
        cases e
        exact absurd rfl
          (hok (ChanResult.recvErr ReceiveError.Empty)
            (by simp [runChannel, hrecv])).2
      | ok val =>
        obtain ⟨q2, buf, cnt⟩ := val
        have hrecv' := hrecv
        unfold receive at hrecv'
        obtain ⟨hwf2, hdecomp, hbuf, hcnt⟩ := pop_spec q _ q2 buf cnt hwf hrecv'
        cases pend with
        | nil =>
          rw [habs] at hdecomp
          exact absurd hdecomp (by simp)
        | cons p pend' =>
          rw [habs] at hdecomp
          simp only [List.map_cons] at hdecomp
          injection hdecomp.symm with h1 h2
          have hhead : (q.slots.getD q.head QueueSlot.emptySlot).message = msgOf p := h1
          have habs2 : absMsgs q2 = pend'.map msgOf := h2
          have hp' : p.length ≤ MAX_PAYLOAD := hp p (by simp)
          have hp2 : ∀ x ∈ pend', x.length ≤ MAX_PAYLOAD := fun x hx => hp x (by simp [hx])
          have hok2 : ∀ r ∈ (runChannel q2 rest).2,
              (∀ e, r ≠ ChanResult.sendErr e) ∧
                r ≠ ChanResult.recvErr ReceiveError.Empty := by
            intro r hr
            exact hok r (by simp [runChannel, hrecv, hr])
          obtain ⟨ih1, ih2⟩ := ih q2 pend' hwf2 habs2 hp2 hok2
          rw [hhead] at hbuf hcnt
          obtain ⟨hw1, hw2⟩ := write_into_take p n hp'
          constructor
          · simp only [runChannel, hrecv, receivedStrings_cons_recvOk,
              sentPayloads_cons_recv, recvBufLens_cons_recv]
            rw [List.cons_append, List.zipWith_cons_cons]
            rw [hbuf, hcnt, hw1]
            exact congrArg _ ih1
          · simp only [runChannel, hrecv, receivedCounts_cons_recvOk,
              sentPayloads_cons_recv, recvBufLens_cons_recv]
            rw [List.cons_append, List.zipWith_cons_cons]
            rw [hcnt, hw2]
            exact congrArg _ ih2

end Channel

namespace Bootfs

/-- The instrumented iterator step agrees with the source step and never
reports an out-of-bounds access: every header, name-length, data-length,
name and data read is preceded by a sufficient bounds check. -/
theorem nextInstr_eq_next (data : List Nat) (it : BootfsIter) :
    BootfsIter.nextInstr data it = Except.ok (BootfsIter.next data it) := by
  unfold BootfsIter.nextInstr BootfsIter.next
  dsimp only
  generalize u16le (data.getD it.offset 0) (data.getD (it.offset + 1) 0) = nl
  generalize (data.drop (it.offset + 2)).take nl = nb
  generalize u32le (data.getD (it.offset + 2 + nl) 0) (data.getD (it.offset + 2 + nl + 1) 0)
    (data.getD (it.offset + 2 + nl + 2) 0) (data.getD (it.offset + 2 + nl + 3) 0) = sz
  generalize (data.drop (it.offset + 2 + nl + 4)).take sz = pl
  by_cases h0 : it.remaining = 0
  · simp only [if_pos h0]
  · simp only [if_neg h0]
    by_cases h1 : data.length < it.offset + 2
    · simp only [if_pos h1]
    · simp only [if_neg h1, if_neg (show ¬ data.length ≤ it.offset by omega),
        if_neg (show ¬ data.length ≤ it.offset + 1 by omega)]
      by_cases h2 : data.length < it.offset + 2 + nl
      · simp only [if_pos h2]
      · simp only [if_neg h2]
        by_cases h3 : data.length < it.offset + 2 + nl + 4
        · simp only [if_pos h3]
        · simp only [if_neg h3,
            if_neg (show ¬ data.length ≤ it.offset + 2 + nl by omega),
            if_neg (show ¬ data.length ≤ it.offset + 2 + nl + 1 by omega),
            if_neg (show ¬ data.length ≤ it.offset + 2 + nl + 2 by omega),
            if_neg (show ¬ data.length ≤ it.offset + 2 + nl + 3 by omega)]
          by_cases h4 : data.length < it.offset + 2 + nl + 4 + sz
          · simp only [if_pos h4]
          · simp only [if_neg h4]
            cases decodeUtf8 nb <;> rfl

/-- A successful iterator step consumes one declared entry, moves the
offset monotonically while keeping it inside the extent, and yields an
entry whose name and payload are slices lying entirely inside
`[0, data.length)`. -/
theorem next_some_spec (data : List Nat) (it : BootfsIter) (e : BootfsEntry)
    (it2 : BootfsIter) (h : BootfsIter.next data it = some (e, it2)) :
    it2.remaining + 1 = it.remaining ∧ it.offset ≤ it2.offset ∧
    it2.offset ≤ data.length ∧
    (∃ nOff nLen, it.offset ≤ nOff ∧ nOff + nLen ≤ data.length ∧
      decodeUtf8 ((data.drop nOff).take nLen) = some e.name) ∧
    (∃ dOff dLen, it.offset ≤ dOff ∧ dOff + dLen ≤ data.length ∧
      e.data = (data.drop dOff).take dLen) := by
  unfold BootfsIter.next at h
  dsimp only at h
  set nl := u16le (data.getD it.offset 0) (data.getD (it.offset + 1) 0) with hnl
  set sz := u32le (data.getD (it.offset + 2 + nl) 0) (data.getD (it.offset + 2 + nl + 1) 0)
    (data.getD (it.offset + 2 + nl + 2) 0) (data.getD (it.offset + 2 + nl + 3) 0) with hsz
  split_ifs at h with h0 h1 h2 h3 h4
  rcases hdec : decodeUtf8 ((data.drop (it.offset + 2)).take nl) with _ | name
  · rw [hdec] at h
    exact absurd h (by simp)
  · rw [hdec] at h
    cases h
    refine ⟨?_, ?_, ?_, ?_, ?_⟩
    · show it.remaining - 1 + 1 = it.remaining
      omega
    · show it.offset ≤ it.offset + 2 + nl + 4 + sz
      omega
    · show it.offset + 2 + nl + 4 + sz ≤ data.length
      omega
    · exact ⟨it.offset + 2, nl, by omega, by omega, hdec⟩
    · exact ⟨it.offset + 2 + nl + 4, sz, by omega, by omega, rfl⟩

/-- The iterator yields at most `fuel` entries. -/
theorem collectFuel_length_le (data : List Nat) :
    ∀ (fuel : Nat) (it : BootfsIter), (collectFuel data fuel it).length ≤ fuel := by
  intro fuel
  induction fuel with
  | zero => intro it; simp [collectFuel]
  | succ f ih =>
    intro it
    unfold collectFuel
    cases hnext : BootfsIter.next data it with
    | none => simp
    | some pr =>
      simp only [List.length_cons]
      exact Nat.succ_le_succ (ih pr.2)

/-- A declared name length that would overrun the extent ends iteration. -/
theorem next_name_overrun (data : List Nat) (it : BootfsIter)
    (h : data.length < it.offset + 2 +
      u16le (data.getD it.offset 0) (data.getD (it.offset + 1) 0)) :
    BootfsIter.next data it = none := by
  unfold BootfsIter.next
  dsimp only
  generalize hg : u16le (data.getD it.offset 0) (data.getD (it.offset + 1) 0) = nl at h ⊢
  split_ifs <;> rfl

/-- A declared data length that would overrun the extent ends iteration. -/
theorem next_data_overrun (data : List Nat) (it : BootfsIter)
    (h : data.length < it.offset + 2 +
      u16le (data.getD it.offset 0) (data.getD (it.offset + 1) 0) + 4 +
      u32le (data.getD (it.offset + 2 +
          u16le (data.getD it.offset 0) (data.getD (it.offset + 1) 0)) 0)
        (data.getD (it.offset + 2 +
          u16le (data.getD it.offset 0) (data.getD (it.offset + 1) 0) + 1) 0)
        (data.getD (it.offset + 2 +
          u16le (data.getD it.offset 0) (data.getD (it.offset + 1) 0) + 2) 0)
        (data.getD (it.offset + 2 +
          u16le (data.getD it.offset 0) (data.getD (it.offset + 1) 0) + 3) 0)) :
    BootfsIter.next data it = none := by
  unfold BootfsIter.next
  dsimp only
  generalize hg : u16le (data.getD it.offset 0) (data.getD (it.offset + 1) 0) = nl at h ⊢
  generalize hg2 : u32le (data.getD (it.offset + 2 + nl) 0)
    (data.getD (it.offset + 2 + nl + 1) 0) (data.getD (it.offset + 2 + nl + 2) 0)
    (data.getD (it.offset + 2 + nl + 3) 0) = sz at h ⊢
  split_ifs <;> rfl

/-- A line `validate_manifest` skips: blank after trimming, or a `#`
comment. -/
def isSkipped (rawLine : List Nat) : Bool :=
  decide (trimChars rawLine = []) || decide ((trimChars rawLine).headD 0 = 35)

/-- A line the validator accepts: skipped, or a service line that parses
with a non-empty artifact resolving to a bootfs entry. -/
def goodLine (data rawLine : List Nat) : Bool :=
  isSkipped rawLine ||
    (match parse_service_line (trimChars rawLine) with
     | Except.ok desc =>
       decide (desc.artifact ≠ []) && (find_entry data desc.artifact).isSome
     | Except.error _ => false)

/-- The number of service (non-skipped) lines of a manifest. -/
def serviceCount (lines : List (List Nat)) : Nat :=
  (lines.filter (fun l => ! isSkipped l)).length

theorem isSkipped_true_iff (l : List Nat) :
    isSkipped l = true ↔ (trimChars l = [] ∨ (trimChars l).headD 0 = 35) := by
  simp [isSkipped]

theorem isSkipped_false_iff (l : List Nat) :
    isSkipped l = false ↔ ¬ (trimChars l = [] ∨ (trimChars l).headD 0 = 35) := by
  rw [← isSkipped_true_iff]
  simp

theorem serviceCount_cons_skipped (l : List Nat) (rest : List (List Nat))
    (h : isSkipped l = true) : serviceCount (l :: rest) = serviceCount rest := by
  simp [serviceCount, List.filter_cons, h]

theorem serviceCount_cons_service (l : List Nat) (rest : List (List Nat))
    (h : isSkipped l = false) : serviceCount (l :: rest) = serviceCount rest + 1 := by
  simp [serviceCount, List.filter_cons, h]

/-- `parse_service_line` only ever fails with `InvalidFormat`. -/
theorem parse_error_invalid (l : List Nat) (e : ManifestError)
    (h : parse_service_line l = Except.error e) : e = ManifestError.InvalidFormat := by
  unfold parse_service_line at h
  split_ifs at h with htag
  · cases h
    rfl
  · split at h <;>
      first
        | (cases h <;> rfl)
        | (unfold parseFields at h; dsimp only at h; split_ifs at h; cases h; rfl)

/-- The validator loop on a list of accepted lines returns the saturating
service count (or `Empty` when no service line was seen). -/
theorem validateLines_ok (data : List Nat) :
    ∀ (lines : List (List Nat)) (acc : Nat) (has : Bool),
      acc ≤ 4294967295 →
      (∀ l ∈ lines, goodLine data l = true) →
      validateLines data lines acc has =
        (if has = true ∨ 0 < serviceCount lines then
          ManifestSummary.mkOk (min (acc + serviceCount lines) 4294967295)
        else ManifestSummary.mkError ManifestError.Empty) := by
  intro lines
  induction lines with
  | nil =>
    intro acc has hacc _
    unfold validateLines serviceCount
    simp only [List.filter_nil, List.length_nil, Nat.add_zero]
    cases has
    · simp
    · simp [Nat.min_eq_left hacc]
  | cons rawLine rest ih =>
    intro acc has hacc hgood
    have hg := hgood rawLine (by simp)
    by_cases hskip : isSkipped rawLine = true
    · rw [serviceCount_cons_skipped rawLine rest hskip]
      unfold validateLines
      dsimp only
      rw [if_pos ((isSkipped_true_iff rawLine).mp hskip)]
      exact ih acc has hacc (fun l hl => hgood l (by simp [hl]))
    · have hskip' : isSkipped rawLine = false := by
        cases hsk : isSkipped rawLine
        · rfl
        · exact absurd hsk hskip
      rw [serviceCount_cons_service rawLine rest hskip']
      unfold goodLine at hg
      rw [hskip'] at hg
      simp only [Bool.false_or] at hg
      cases hp : parse_service_line (trimChars rawLine) with
      | error e => rw [hp] at hg; cases hg
      | ok desc =>
        rw [hp] at hg
        simp only [Bool.and_eq_true, decide_eq_true_eq] at hg
        obtain ⟨hart, hfound⟩ := hg
        have hnomiss : ¬ (desc.artifact = [] ∨
            (find_entry data desc.artifact).isNone = true) := by
          intro hc
          rcases hc with hc | hc
          · exact hart hc
          · rw [Option.isNone_iff_eq_none] at hc
            rw [hc] at hfound
            simp at hfound
        have hstep : validateLines data (rawLine :: rest) acc has =
            validateLines data rest (satAdd32 acc 1) true := by
          conv_lhs => unfold validateLines
          dsimp only
          rw [if_neg ((isSkipped_false_iff rawLine).mp hskip'), hp]
          dsimp only
          rw [if_neg hnomiss]
        rw [hstep, ih (satAdd32 acc 1) true (by unfold satAdd32; omega)
          (fun l hl => hgood l (by simp [hl]))]
        have hL : (true = true ∨ 0 < serviceCount rest) := Or.inl rfl
        have hR : (has = true ∨ 0 < serviceCount rest + 1) := Or.inr (by omega)
        rw [if_pos hL, if_pos hR]
        unfold ManifestSummary.mkOk satAdd32
        have hmin : min (min (acc + 1) 4294967295 + serviceCount rest) 4294967295 =
            min (acc + (serviceCount rest + 1)) 4294967295 := by omega
        rw [hmin]

/-- When the first non-skipped line fails to parse, validation reports
that parse error. -/
theorem validateLines_parse_error (data : List Nat) :
    ∀ (pre : List (List Nat)) (rawLine : List Nat) (rest : List (List Nat))
      (acc : Nat) (has : Bool) (e : ManifestError),
      (∀ l ∈ pre, goodLine data l = true) →
      isSkipped rawLine = false →
      parse_service_line (trimChars rawLine) = Except.error e →
      validateLines data (pre ++ rawLine :: rest) acc has =
        ManifestSummary.mkError e := by
  intro pre
  induction pre with
  | nil =>
    intro rawLine rest acc has e _ hskip hp
    simp only [List.nil_append]
    conv_lhs => unfold validateLines
    dsimp only
    rw [if_neg ((isSkipped_false_iff rawLine).mp hskip), hp]
  | cons p pre' ih =>
    intro rawLine rest acc has e hgood hskip hp
    have hg := hgood p (by simp)
    rw [List.cons_append]
    by_cases hskipp : isSkipped p = true
    · conv_lhs => unfold validateLines
      dsimp only
      rw [if_pos ((isSkipped_true_iff p).mp hskipp)]
      exact ih rawLine rest acc has e (fun l hl => hgood l (by simp [hl])) hskip hp
    · have hskipp' : isSkipped p = false := by
        cases hsk : isSkipped p
        · rfl
        · exact absurd hsk hskipp
      unfold goodLine at hg
      rw [hskipp'] at hg
      simp only [Bool.false_or] at hg
      cases hpp : parse_service_line (trimChars p) with
      | error e2 => rw [hpp] at hg; cases hg
      | ok desc =>
        rw [hpp] at hg
        simp only [Bool.and_eq_true, decide_eq_true_eq] at hg
        obtain ⟨hart, hfound⟩ := hg
        have hnomiss : ¬ (desc.artifact = [] ∨
            (find_entry data desc.artifact).isNone = true) := by
          intro hc
          rcases hc with hc | hc
          · exact hart hc
          · rw [Option.isNone_iff_eq_none] at hc
            rw [hc] at hfound
            simp at hfound
        have hstep : validateLines data (p :: (pre' ++ rawLine :: rest)) acc has =
            validateLines data (pre' ++ rawLine :: rest) (satAdd32 acc 1) true := by
          conv_lhs => unfold validateLines
          dsimp only
          rw [if_neg ((isSkipped_false_iff p).mp hskipp'), hpp]
          dsimp only
          rw [if_neg hnomiss]
        rw [hstep]
        exact ih rawLine rest (satAdd32 acc 1) true e
          (fun l hl => hgood l (by simp [hl])) hskip hp

/-- When the first non-skipped line parses but its artifact is absent,
validation reports `MissingArtifact`. -/
theorem validateLines_missing_artifact (data : List Nat) :
    ∀ (pre : List (List Nat)) (rawLine : List Nat) (rest : List (List Nat))
      (acc : Nat) (has : Bool) (desc : ServiceDescriptor),
      (∀ l ∈ pre, goodLine data l = true) →
      isSkipped rawLine = false →
      parse_service_line (trimChars rawLine) = Except.ok desc →
      (desc.artifact = [] ∨ (find_entry data desc.artifact).isNone = true) →
      validateLines data (pre ++ rawLine :: rest) acc has =
        ManifestSummary.mkError ManifestError.MissingArtifact := by
  intro pre
  induction pre with
  | nil =>
    intro rawLine rest acc has desc _ hskip hp hmiss
    simp only [List.nil_append]
    conv_lhs => unfold validateLines
    dsimp only
    rw [if_neg ((isSkipped_false_iff rawLine).mp hskip), hp]
    dsimp only
    rw [if_pos hmiss]
  | cons p pre' ih =>
    intro rawLine rest acc has desc hgood hskip hp hmiss
    have hg := hgood p (by simp)
    rw [List.cons_append]
    by_cases hskipp : isSkipped p = true
    · conv_lhs => unfold validateLines
      dsimp only
      rw [if_pos ((isSkipped_true_iff p).mp hskipp)]
      exact ih rawLine rest acc has desc (fun l hl => hgood l (by simp [hl])) hskip hp hmiss
    · have hskipp' : isSkipped p = false := by
        cases hsk : isSkipped p
        · rfl
        · exact absurd hsk hskipp
      unfold goodLine at hg
      rw [hskipp'] at hg
      simp only [Bool.false_or] at hg
      cases hpp : parse_service_line (trimChars p) with
      | error e2 => rw [hpp] at hg; cases hg
      | ok desc2 =>
        rw [hpp] at hg
        simp only [Bool.and_eq_true, decide_eq_true_eq] at hg
        obtain ⟨hart, hfound⟩ := hg
        have hnomiss : ¬ (desc2.artifact = [] ∨
            (find_entry data desc2.artifact).isNone = true) := by
          intro hc
          rcases hc with hc | hc
          · exact hart hc
          · rw [Option.isNone_iff_eq_none] at hc
            rw [hc] at hfound
            simp at hfound
        have hstep : validateLines data (p :: (pre' ++ rawLine :: rest)) acc has =
            validateLines data (pre' ++ rawLine :: rest) (satAdd32 acc 1) true := by
          conv_lhs => unfold validateLines
          dsimp only
          rw [if_neg ((isSkipped_false_iff p).mp hskipp'), hpp]
          dsimp only
          rw [if_neg hnomiss]
        rw [hstep]
        exact ih rawLine rest (satAdd32 acc 1) true desc
          (fun l hl => hgood l (by simp [hl])) hskip hp hmiss

/-- All-skipped manifests have no service lines. -/
theorem serviceCount_all_skipped (lines : List (List Nat))
    (h : ∀ l ∈ lines, isSkipped l = true) : serviceCount lines = 0 := by
  unfold serviceCount
  rw [List.length_eq_zero]
  rw [List.filter_eq_nil_iff]
  intro l hl
  simp [h l hl]

end Bootfs

namespace Scheduler

/-- Ready-queue well-formedness: 16 slots and cursors in range. -/
def SWF (q : ReadyQueue) : Prop :=
  q.slots.length = MAX_TASKS ∧ q.head < MAX_TASKS ∧ q.tail < MAX_TASKS

/-- The queued slots between head and tail, oldest first. -/
def absTasks (q : ReadyQueue) : List (Option TaskControlBlock) :=
  (List.range (qSize q)).map fun i => q.slots.getD ((q.head + i) % MAX_TASKS) none

theorem SWF_new : SWF ReadyQueue.new := ⟨by decide, by decide, by decide⟩

theorem absTasks_new : absTasks ReadyQueue.new = [] := by decide

theorem absTasks_length (q : ReadyQueue) : (absTasks q).length = qSize q := by
  simp [absTasks]

/-- `register` refuses exactly when the would-be-new tail collides with
the head. -/
theorem push_none_iff (q : ReadyQueue) (e : Nat) :
    q.push e = none ↔ (q.tail + 1) % MAX_TASKS = q.head := by
  unfold ReadyQueue.push
  dsimp only
  split_ifs with h <;> simp [h]

/-- A successful `push` appends a fresh `Ready` TCB carrying the entry. -/
theorem spush_spec (q : ReadyQueue) (e id : Nat) (q2 : ReadyQueue)
    (hwf : SWF q) (h : q.push e = some (id, q2)) :
    SWF q2 ∧
    absTasks q2 = absTasks q ++ [some ⟨q.next_id, e, TaskState.Ready⟩] ∧
    id = q.next_id := by
  obtain ⟨hsl, hh, ht⟩ := hwf
  unfold ReadyQueue.push at h
  dsimp only at h
  split_ifs at h with hcol
  cases h
  unfold SWF absTasks qSize
  unfold MAX_TASKS at *
  dsimp only
  have hsz : ((q.tail + 1) % 16 + 16 - q.head) % 16 = (q.tail + 16 - q.head) % 16 + 1 := by
    omega
  refine ⟨⟨by simpa using hsl, hh, by omega⟩, ?_, rfl⟩
  rw [hsz, List.range_succ, List.map_append]
  congr 1
  · apply List.map_congr_left
    intro i hi
    have hi' : i < (q.tail + 16 - q.head) % 16 := List.mem_range.mp hi
    have hne : q.tail ≠ (q.head + i) % 16 := by omega
    rw [getD_set_ne_idx _ _ _ _ _ hne]
  · simp only [List.map_cons, List.map_nil]
    have hidx : (q.head + (q.tail + 16 - q.head) % 16) % 16 = q.tail := by omega
    rw [hidx, getD_set_self_idx _ _ _ _ (by rw [hsl]; omega)]

/-- `pop` on a non-empty queue removes the head slot, marking a present
task `Running`. -/
theorem spop_spec (q : ReadyQueue) (hwf : SWF q) (hne : ¬ q.head = q.tail) :
    q.pop = ((q.slots.getD q.head none).map
        (fun t => { t with state := TaskState.Running }),
      ⟨q.slots.set q.head none, (q.head + 1) % MAX_TASKS, q.tail, q.next_id⟩) ∧
    SWF (q.pop).2 ∧
    absTasks q = q.slots.getD q.head none :: absTasks (q.pop).2 := by
  obtain ⟨hsl, hh, ht⟩ := hwf
  have hpop : q.pop = ((q.slots.getD q.head none).map
      (fun t => { t with state := TaskState.Running }),
      ⟨q.slots.set q.head none, (q.head + 1) % MAX_TASKS, q.tail, q.next_id⟩) := by
    unfold ReadyQueue.pop
    rw [if_neg hne]
    cases hslot : q.slots.getD q.head none <;> simp [hslot]
  refine ⟨hpop, ?_, ?_⟩ <;> rw [hpop] <;> dsimp only
  · refine ⟨by simpa using hsl, ?_, ht⟩
    show (q.head + 1) % MAX_TASKS < MAX_TASKS
    unfold MAX_TASKS
    omega
  · unfold absTasks qSize
    unfold MAX_TASKS at *
    dsimp only
    have hs : (q.tail + 16 - q.head) % 16 =
        ((q.tail + 16 - (q.head + 1) % 16) % 16) + 1 := by omega
    rw [hs, List.range_succ_eq_map, List.map_cons, List.map_map]
    congr 1
    · rw [Nat.add_zero, Nat.mod_eq_of_lt hh]
    · apply List.map_congr_left
      intro i hi
      have hi' : i < (q.tail + 16 - (q.head + 1) % 16) % 16 := List.mem_range.mp hi
      simp only [Function.comp]
      have hne2 : q.head ≠ ((q.head + 1) % 16 + i) % 16 := by omega
      rw [getD_set_ne_idx _ _ _ _ _ hne2]
      have hidx : ((q.head + 1) % 16 + i) % 16 = (q.head + Nat.succ i) % 16 := by omega
      rw [hidx]

/-- With enough fuel, the run loop executes exactly the queued tasks in
FIFO order (each marked `Running`) and stops with an empty queue. -/
theorem runLoop_drains (ts : List TaskControlBlock) :
    ∀ (fuel : Nat) (q : ReadyQueue), SWF q → absTasks q = ts.map some →
      ts.length < fuel →
      (runLoop fuel q).1 = ts.map (fun t => { t with state := TaskState.Running }) ∧
      qSize (runLoop fuel q).2 = 0 := by
  induction ts with
  | nil =>
    intro fuel q hwf habs hlen
    have hsz : qSize q = 0 := by
      have hl := absTasks_length q
      rw [habs] at hl
      simpa using hl.symm
    obtain ⟨_, hh, ht⟩ := hwf
    have hht : q.head = q.tail := by
      unfold qSize at hsz
      unfold MAX_TASKS at hsz hh ht
      omega
    cases fuel with
    | zero => exact absurd hlen (by simp)
    | succ f =>
      have hpop : q.pop = (none, q) := by
        unfold ReadyQueue.pop
        rw [if_pos hht]
      simp [runLoop, hpop, hsz]
  | cons t ts' ih =>
    intro fuel q hwf habs hlen
    have hne : ¬ q.head = q.tail := by
      intro he
      have h0 : qSize q = 0 := by
        unfold qSize
        unfold MAX_TASKS
        omega
      have hl := absTasks_length q
      rw [habs, h0] at hl
      simp at hl
    obtain ⟨hqpop, hwf2, hdec⟩ := spop_spec q hwf hne
    rw [habs] at hdec
    simp only [List.map_cons] at hdec
    injection hdec with h1 h2
    rw [hqpop] at hwf2 h2
    dsimp only at hwf2 h2
    cases fuel with
    | zero => exact absurd hlen (by omega)
    | succ f =>
      obtain ⟨ih1, ih2⟩ := ih f _ hwf2 h2.symm (by simpa using Nat.lt_of_succ_lt_succ hlen)
      constructor
      · simp only [runLoop, hqpop, ← h1, Option.map_some', List.map_cons]
        rw [ih1]
      · simp only [runLoop, hqpop, ← h1, Option.map_some']
        exact ih2

/-- The entries whose registration attempt returned an id, in call
order; `rs` is the per-call result list of the registration sequence. -/
def acceptedEntries (es : List Nat) (rs : List (Option Nat)) : List Nat :=
  (es.zip rs).filterMap fun p =>
    match p.2 with
    | some _ => some p.1
    | none => none

theorem acceptedEntries_nil (rs : List (Option Nat)) :
    acceptedEntries [] rs = [] := by
  simp [acceptedEntries]

theorem acceptedEntries_cons_some (e : Nat) (es : List Nat) (id : Nat)
    (rs : List (Option Nat)) :
    acceptedEntries (e :: es) (some id :: rs) = e :: acceptedEntries es rs := by
  simp [acceptedEntries]

theorem acceptedEntries_cons_none (e : Nat) (es : List Nat)
    (rs : List (Option Nat)) :
    acceptedEntries (e :: es) (none :: rs) = acceptedEntries es rs := by
  simp [acceptedEntries]

/-- A registration sequence — refusals included — appends TCBs whose
entries are exactly the accepted entries, in call order; a refused
`push` leaves the queue unchanged. -/
theorem pushAll_spec (es : List Nat) : ∀ (q : ReadyQueue) (ts : List TaskControlBlock),
    SWF q → absTasks q = ts.map some →
    ∃ ts2, SWF (pushAll q es).2 ∧
      absTasks (pushAll q es).2 = (ts ++ ts2).map some ∧
      ts2.map TaskControlBlock.entry = acceptedEntries es (pushAll q es).1 := by
  induction es with
  | nil =>
    intro q ts hwf habs
    exact ⟨[], by simpa [pushAll] using hwf, by simpa [pushAll] using habs,
      by simp [acceptedEntries]⟩
  | cons e es' ih =>
    intro q ts hwf habs
    cases hp : q.push e with
    | none =>
      obtain ⟨ts2, hwf2, habs2, hent⟩ := ih q ts hwf habs
      refine ⟨ts2, ?_, ?_, ?_⟩
      · simpa [pushAll, hp] using hwf2
      · simpa [pushAll, hp] using habs2
      · simp only [pushAll, hp]
        rw [acceptedEntries_cons_none]
        exact hent
    | some val =>
      obtain ⟨id, q2⟩ := val
      obtain ⟨hwf2, habs2, _⟩ := spush_spec q e id q2 hwf hp
      have habs2' : absTasks q2 =
          ((ts ++ [⟨q.next_id, e, TaskState.Ready⟩] : List TaskControlBlock)).map some := by
        rw [habs2, habs, List.map_append]
        rfl
      obtain ⟨ts2, hwf3, habs3, hent⟩ :=
        ih q2 ((ts ++ [⟨q.next_id, e, TaskState.Ready⟩] : List TaskControlBlock))
          hwf2 habs2'
      refine ⟨(⟨q.next_id, e, TaskState.Ready⟩ : TaskControlBlock) :: ts2, ?_, ?_, ?_⟩
      · simpa [pushAll, hp] using hwf3
      · have hassoc : ts ++ (⟨q.next_id, e, TaskState.Ready⟩ :: ts2 :
            List TaskControlBlock) =
            (ts ++ [⟨q.next_id, e, TaskState.Ready⟩]) ++ ts2 := by simp
        rw [hassoc]
        simpa [pushAll, hp] using habs3
      · simp only [pushAll, hp, List.map_cons]
        rw [acceptedEntries_cons_some]
        rw [hent]

end Scheduler

namespace Channel

/-- A queue state with `MAX_MESSAGES` queued one-byte messages. -/
def fullQueue16 : MessageQueue :=
  (runChannel MessageQueue.new (List.replicate MAX_MESSAGES (ChanOp.send [0]))).1

instance : Fintype SendError :=
  ⟨⟨{SendError.Full, SendError.Oversized, SendError.Unroutable}, by decide⟩,
    fun x => by cases x <;> decide⟩

end Channel

/-- **C1 counterexample.** A trace consisting of a single oversized send
satisfies the claim's premise — no send returns `Full` and no receive
returns `Empty` (the only result is `Oversized`) — yet the sequence of
byte strings produced by receive (empty) cannot equal the sequence of
payloads passed to send (one element), whatever the truncation. -/
theorem C1_oversized_send_counterexample :
    (∀ r ∈ (Channel.runChannel Channel.MessageQueue.new
        [Channel.ChanOp.send (List.replicate 65 0)]).2,
      r ≠ Channel.ChanResult.sendErr Channel.SendError.Full ∧
        r ≠ Channel.ChanResult.recvErr Channel.ReceiveError.Empty) ∧
    (Channel.receivedStrings (Channel.runChannel Channel.MessageQueue.new
        [Channel.ChanOp.send (List.replicate 65 0)]).2).length ≠
      (Channel.sentPayloads [Channel.ChanOp.send (List.replicate 65 0)]).length := by
  decide

/-- **C1 (amended).** For every trace of channel operations in which every
send succeeds (returns neither `Full` nor `Oversized`) and no receive
returns `Empty`, the byte strings produced by the successive receives are
exactly the first `r` payloads passed to send (`r` = number of receives),
in send order, each truncated to `min (payload length) (buffer length)`
bytes, and each receive returns that count. -/
theorem C1_channel_fifo (ops : List Channel.ChanOp)
    (hok : ∀ r ∈ (Channel.runChannel Channel.MessageQueue.new ops).2,
      (∀ e, r ≠ Channel.ChanResult.sendErr e) ∧
        r ≠ Channel.ChanResult.recvErr Channel.ReceiveError.Empty) :
    Channel.receivedStrings (Channel.runChannel Channel.MessageQueue.new ops).2 =
      List.zipWith (fun p n => p.take (min p.length n)) (Channel.sentPayloads ops)
        (Channel.recvBufLens ops) ∧
    Channel.receivedCounts (Channel.runChannel Channel.MessageQueue.new ops).2 =
      List.zipWith (fun p n => min p.length n) (Channel.sentPayloads ops)
        (Channel.recvBufLens ops) := by
  have h := Channel.runChannel_fifo ops Channel.MessageQueue.new [] Channel.QWF_new
    (by rw [Channel.absMsgs_new]; rfl) (by intro p hp; cases hp) hok
  simpa using h

/-- Witness for C1 on a concrete trace: two sends then two receives, the
second into a buffer larger than the payload. -/
theorem C1_channel_fifo_witness :
    Channel.receivedStrings (Channel.runChannel Channel.MessageQueue.new
      [Channel.ChanOp.send [1, 2, 3], Channel.ChanOp.send [4],
        Channel.ChanOp.recv 2, Channel.ChanOp.recv 9]).2 =
      List.zipWith (fun p n => p.take (min p.length n))
        (Channel.sentPayloads [Channel.ChanOp.send [1, 2, 3], Channel.ChanOp.send [4],
          Channel.ChanOp.recv 2, Channel.ChanOp.recv 9])
        (Channel.recvBufLens [Channel.ChanOp.send [1, 2, 3], Channel.ChanOp.send [4],
          Channel.ChanOp.recv 2, Channel.ChanOp.recv 9]) ∧
    Channel.receivedCounts (Channel.runChannel Channel.MessageQueue.new
      [Channel.ChanOp.send [1, 2, 3], Channel.ChanOp.send [4],
        Channel.ChanOp.recv 2, Channel.ChanOp.recv 9]).2 =
      List.zipWith (fun p n => min p.length n)
        (Channel.sentPayloads [Channel.ChanOp.send [1, 2, 3], Channel.ChanOp.send [4],
          Channel.ChanOp.recv 2, Channel.ChanOp.recv 9])
        (Channel.recvBufLens [Channel.ChanOp.send [1, 2, 3], Channel.ChanOp.send [4],
          Channel.ChanOp.recv 2, Channel.ChanOp.recv 9]) :=
  C1_channel_fifo
    [Channel.ChanOp.send [1, 2, 3], Channel.ChanOp.send [4],
      Channel.ChanOp.recv 2, Channel.ChanOp.recv 9] (by decide)

/-- **C6 counterexample.** On a channel already holding `MAX_MESSAGES`
messages, a send whose payload exceeds `MAX_PAYLOAD` returns `Oversized`,
not `Full`: `from_slice` checks the payload length before `push` checks
the capacity, so the claim's first clause fails for oversized payloads. -/
theorem C6_full_queue_oversized_counterexample :
    Channel.fullQueue16.len = Channel.MAX_MESSAGES ∧
    Channel.send Channel.fullQueue16 (List.replicate 65 0) =
      Except.error Channel.SendError.Oversized ∧
    Channel.SendError.Oversized ≠ Channel.SendError.Full := by
  refine ⟨by decide, by decide, by decide⟩

/-- **C6 (amended).** `send` of a payload longer than `MAX_PAYLOAD`
returns `Oversized` regardless of the queue state; `send` of an accepted
payload (length ≤ `MAX_PAYLOAD`) on a channel holding `MAX_MESSAGES`
messages returns `Full`; in both cases no new queue state is produced;
`receive` on a channel of length 0 returns `Empty`; and a successful send
fully overwrites the tail slot: the stored payload is the sent bytes
followed by zero padding, independent of any earlier message in the
slot. -/
theorem C6_channel_bounds (q : Channel.MessageQueue) (bytes : List Nat) :
    (q.len = Channel.MAX_MESSAGES → bytes.length ≤ Channel.MAX_PAYLOAD →
      Channel.send q bytes = Except.error Channel.SendError.Full) ∧
    (Channel.MAX_PAYLOAD < bytes.length →
      Channel.send q bytes = Except.error Channel.SendError.Oversized) ∧
    (q.len = 0 → ∀ buffer : List Nat,
      Channel.receive q buffer = Except.error Channel.ReceiveError.Empty) ∧
    (q.tail < q.slots.length → ∀ q2, Channel.send q bytes = Except.ok q2 →
      (q2.slots.getD q.tail Channel.QueueSlot.emptySlot).message =
        ⟨bytes.length, bytes ++ List.replicate (Channel.MAX_PAYLOAD - bytes.length) 0⟩) := by
  refine ⟨?_, ?_, ?_, ?_⟩
  · intro hfull hlen
    unfold Channel.send Channel.Message.from_slice
    rw [if_neg (by omega)]
    dsimp only
    unfold Channel.MessageQueue.push
    rw [if_pos hfull]
  · intro hov
    unfold Channel.send Channel.Message.from_slice
    rw [if_pos hov]
  · intro hzero buffer
    unfold Channel.receive Channel.MessageQueue.pop
    rw [if_pos hzero]
  · intro htl q2 hsend
    unfold Channel.send at hsend
    cases hfs : Channel.Message.from_slice bytes with
    | error e => rw [hfs] at hsend; exact absurd hsend (by simp)
    | ok m =>
      rw [hfs] at hsend
      obtain ⟨hm, _⟩ := Channel.from_slice_ok bytes m hfs
      subst hm
      unfold Channel.MessageQueue.push at hsend
      split_ifs at hsend
      cases hsend
      dsimp only
      rw [getD_set_self_idx _ _ _ _ htl]
      rfl

/-- Witness for C6 at concrete inputs: a full queue rejects a one-byte
send with `Full`; a 65-byte send is `Oversized`; the fresh queue is
`Empty` on receive; and a successful send stores the zero-padded
payload. -/
theorem C6_channel_bounds_witness :
    Channel.send Channel.fullQueue16 [7] = Except.error Channel.SendError.Full ∧
    Channel.send Channel.MessageQueue.new (List.replicate 65 0) =
      Except.error Channel.SendError.Oversized ∧
    Channel.receive Channel.MessageQueue.new [0, 0] =
      Except.error Channel.ReceiveError.Empty ∧
    (∀ q2, Channel.send Channel.MessageQueue.new [7] = Except.ok q2 →
      (q2.slots.getD Channel.MessageQueue.new.tail Channel.QueueSlot.emptySlot).message =
        ⟨1, [7] ++ List.replicate 63 0⟩) :=
  ⟨(C6_channel_bounds Channel.fullQueue16 [7]).1 (by decide) (by decide),
   (C6_channel_bounds Channel.MessageQueue.new (List.replicate 65 0)).2.1 (by decide),
   (C6_channel_bounds Channel.MessageQueue.new [0]).2.2.1 (by decide) [0, 0],
   fun q2 h => by
    have := (C6_channel_bounds Channel.MessageQueue.new [7]).2.2.2 (by decide) q2 h
    simpa using this⟩

/-- **C3.** `validate_manifest` behavior, for every bootfs extent:
a manifest whose lines are all accepted (blank, comment, or a parsing
service line with a resolvable artifact), with `k ≥ 1` service lines and
`k` within the `u32` range, yields `{service_count = k, error = none}`;
no entry named `services.manifest` yields `MissingManifest`; an entry
that is not valid UTF-8 yields `Utf8`; a first structurally bad service
line (wrong prefix, wrong field count, or an empty mandatory field, i.e.
`parse_service_line` fails) yields `InvalidFormat` — and a parse failure
can carry no other error; a first service line whose artifact does not
resolve yields `MissingArtifact`; and a manifest with no service line
yields `Empty`. -/
theorem C3_validate_manifest (data : List Nat) :
    (Bootfs.find_entry data Bootfs.MANIFEST_NAME = none →
      Bootfs.validate_manifest data = ⟨0, some Bootfs.ManifestError.MissingManifest⟩) ∧
    (∀ bytes, Bootfs.find_entry data Bootfs.MANIFEST_NAME = some bytes →
      Bootfs.decodeUtf8 bytes = none →
      Bootfs.validate_manifest data = ⟨0, some Bootfs.ManifestError.Utf8⟩) ∧
    (∀ bytes text, Bootfs.find_entry data Bootfs.MANIFEST_NAME = some bytes →
      Bootfs.decodeUtf8 bytes = some text →
      (∀ l ∈ Bootfs.rustLines text, Bootfs.goodLine data l = true) →
      0 < Bootfs.serviceCount (Bootfs.rustLines text) →
      Bootfs.serviceCount (Bootfs.rustLines text) ≤ 4294967295 →
      Bootfs.validate_manifest data =
        ⟨Bootfs.serviceCount (Bootfs.rustLines text), none⟩) ∧
    (∀ bytes text, Bootfs.find_entry data Bootfs.MANIFEST_NAME = some bytes →
      Bootfs.decodeUtf8 bytes = some text →
      (∀ l ∈ Bootfs.rustLines text, Bootfs.isSkipped l = true) →
      Bootfs.validate_manifest data = ⟨0, some Bootfs.ManifestError.Empty⟩) ∧
    (∀ bytes text pre rawLine rest e,
      Bootfs.find_entry data Bootfs.MANIFEST_NAME = some bytes →
      Bootfs.decodeUtf8 bytes = some text →
      Bootfs.rustLines text = pre ++ rawLine :: rest →
      (∀ l ∈ pre, Bootfs.goodLine data l = true) →
      Bootfs.isSkipped rawLine = false →
      Bootfs.parse_service_line (Bootfs.trimChars rawLine) = Except.error e →
      Bootfs.validate_manifest data = ⟨0, some Bootfs.ManifestError.InvalidFormat⟩) ∧
    (∀ bytes text pre rawLine rest desc,
      Bootfs.find_entry data Bootfs.MANIFEST_NAME = some bytes →
      Bootfs.decodeUtf8 bytes = some text →
      Bootfs.rustLines text = pre ++ rawLine :: rest →
      (∀ l ∈ pre, Bootfs.goodLine data l = true) →
      Bootfs.isSkipped rawLine = false →
      Bootfs.parse_service_line (Bootfs.trimChars rawLine) = Except.ok desc →
      (desc.artifact = [] ∨ (Bootfs.find_entry data desc.artifact).isNone = true) →
      Bootfs.validate_manifest data = ⟨0, some Bootfs.ManifestError.MissingArtifact⟩) := by
  refine ⟨?_, ?_, ?_, ?_, ?_, ?_⟩
  · intro hfind
    unfold Bootfs.validate_manifest
    rw [hfind]
    rfl
  · intro bytes hfind hdec
    unfold Bootfs.validate_manifest
    rw [hfind]
    dsimp only
    rw [hdec]
    rfl
  · intro bytes text hfind hdec hgood hpos hle
    unfold Bootfs.validate_manifest
    rw [hfind]
    dsimp only
    rw [hdec]
    dsimp only
    rw [Bootfs.validateLines_ok data (Bootfs.rustLines text) 0 false (by omega) hgood]
    rw [if_pos (Or.inr hpos)]
    unfold Bootfs.ManifestSummary.mkOk
    rw [Nat.zero_add, Nat.min_eq_left hle]
  · intro bytes text hfind hdec hskipall
    unfold Bootfs.validate_manifest
    rw [hfind]
    dsimp only
    rw [hdec]
    dsimp only
    rw [Bootfs.validateLines_ok data (Bootfs.rustLines text) 0 false (by omega)
      (fun l hl => by unfold Bootfs.goodLine; rw [hskipall l hl]; rfl)]
    rw [Bootfs.serviceCount_all_skipped (Bootfs.rustLines text) hskipall]
    rw [if_neg (by simp)]
    rfl
  · intro bytes text pre rawLine rest e hfind hdec hsplit hgood hskip hp
    have hinv := Bootfs.parse_error_invalid (Bootfs.trimChars rawLine) e hp
    subst hinv
    unfold Bootfs.validate_manifest
    rw [hfind]
    dsimp only
    rw [hdec]
    dsimp only
    rw [hsplit,
      Bootfs.validateLines_parse_error data pre rawLine rest 0 false
        Bootfs.ManifestError.InvalidFormat hgood hskip hp]
    rfl
  · intro bytes text pre rawLine rest desc hfind hdec hsplit hgood hskip hp hmiss
    unfold Bootfs.validate_manifest
    rw [hfind]
    dsimp only
    rw [hdec]
    dsimp only
    rw [hsplit,
      Bootfs.validateLines_missing_artifact data pre rawLine rest 0 false desc
        hgood hskip hp hmiss]
    rfl

/-- Witness for C3 on a concrete image whose `services.manifest` contains
one valid service line `service:foo:app.bin:main` and whose `app.bin`
artifact entry exists: validation reports one service and no error. -/
theorem C3_validate_manifest_witness :
    Bootfs.validate_manifest
      ([82, 67, 70, 83, 1, 0, 2, 0, 17, 0] ++ Bootfs.MANIFEST_NAME ++ [24, 0, 0, 0] ++
        [115, 101, 114, 118, 105, 99, 101, 58, 102, 111, 111, 58, 97, 112, 112, 46, 98,
          105, 110, 58, 109, 97, 105, 110] ++
        [7, 0, 97, 112, 112, 46, 98, 105, 110, 1, 0, 0, 0, 1]) =
      ⟨Bootfs.serviceCount (Bootfs.rustLines
        [115, 101, 114, 118, 105, 99, 101, 58, 102, 111, 111, 58, 97, 112, 112, 46, 98,
          105, 110, 58, 109, 97, 105, 110]), none⟩ :=
  (C3_validate_manifest
      ([82, 67, 70, 83, 1, 0, 2, 0, 17, 0] ++ Bootfs.MANIFEST_NAME ++ [24, 0, 0, 0] ++
        [115, 101, 114, 118, 105, 99, 101, 58, 102, 111, 111, 58, 97, 112, 112, 46, 98,
          105, 110, 58, 109, 97, 105, 110] ++
        [7, 0, 97, 112, 112, 46, 98, 105, 110, 1, 0, 0, 0, 1])).2.2.1
    [115, 101, 114, 118, 105, 99, 101, 58, 102, 111, 111, 58, 97, 112, 112, 46, 98, 105,
      110, 58, 109, 97, 105, 110]
    [115, 101, 114, 118, 105, 99, 101, 58, 102, 111, 111, 58, 97, 112, 112, 46, 98, 105,
      110, 58, 109, 97, 105, 110]
    (by decide) (by decide) (by decide) (by decide) (by decide)

/-- **C2.** For every extent contents (adversarial included) the bootfs
iterator terminates — each successful step consumes one declared entry
and a full drain yields at most the declared count — and every read stays
inside `[0, data.length)`: the step function with every access
instrumented against the extent bounds agrees with the source step (so
each header, name and data read is preceded by a sufficient bounds
check); each produced entry's name and payload are slices lying inside
the extent and the cursor never leaves it; and a declared `name_len` or
`data_len` that would overrun the extent ends iteration with no
output. -/
theorem C2_bootfs_iter_safety :
    (∀ (data : List Nat) (it : Bootfs.BootfsIter),
      Bootfs.BootfsIter.nextInstr data it = Except.ok (Bootfs.BootfsIter.next data it)) ∧
    (∀ (data : List Nat) (it : Bootfs.BootfsIter) (e : Bootfs.BootfsEntry)
        (it2 : Bootfs.BootfsIter),
      Bootfs.BootfsIter.next data it = some (e, it2) →
      it2.remaining + 1 = it.remaining ∧ it.offset ≤ it2.offset ∧
        it2.offset ≤ data.length ∧
        (∃ nOff nLen, it.offset ≤ nOff ∧ nOff + nLen ≤ data.length ∧
          Bootfs.decodeUtf8 ((data.drop nOff).take nLen) = some e.name) ∧
        (∃ dOff dLen, it.offset ≤ dOff ∧ dOff + dLen ≤ data.length ∧
          e.data = (data.drop dOff).take dLen)) ∧
    (∀ (data : List Nat) (fuel : Nat) (it : Bootfs.BootfsIter),
      (Bootfs.collectFuel data fuel it).length ≤ fuel) ∧
    (∀ (data : List Nat) (it : Bootfs.BootfsIter),
      data.length < it.offset + 2 +
          Bootfs.u16le (data.getD it.offset 0) (data.getD (it.offset + 1) 0) →
      Bootfs.BootfsIter.next data it = none) ∧
    (∀ (data : List Nat) (it : Bootfs.BootfsIter),
      data.length < it.offset + 2 +
          Bootfs.u16le (data.getD it.offset 0) (data.getD (it.offset + 1) 0) + 4 +
          Bootfs.u32le (data.getD (it.offset + 2 +
              Bootfs.u16le (data.getD it.offset 0) (data.getD (it.offset + 1) 0)) 0)
            (data.getD (it.offset + 2 +
              Bootfs.u16le (data.getD it.offset 0) (data.getD (it.offset + 1) 0) + 1) 0)
            (data.getD (it.offset + 2 +
              Bootfs.u16le (data.getD it.offset 0) (data.getD (it.offset + 1) 0) + 2) 0)
            (data.getD (it.offset + 2 +
              Bootfs.u16le (data.getD it.offset 0) (data.getD (it.offset + 1) 0) + 3) 0) →
      Bootfs.BootfsIter.next data it = none) :=
  ⟨Bootfs.nextInstr_eq_next, Bootfs.next_some_spec, Bootfs.collectFuel_length_le,
   Bootfs.next_name_overrun, Bootfs.next_data_overrun⟩

/-- Witness for C2 on a concrete one-entry image (name `"a"`, one data
byte): the step from the header offset yields the entry and the
in-bounds slice decomposition. -/
theorem C2_bootfs_iter_safety_witness :
    (⟨16, 0⟩ : Bootfs.BootfsIter).remaining + 1 =
      (⟨8, 1⟩ : Bootfs.BootfsIter).remaining ∧
    (⟨8, 1⟩ : Bootfs.BootfsIter).offset ≤ (⟨16, 0⟩ : Bootfs.BootfsIter).offset ∧
    (⟨16, 0⟩ : Bootfs.BootfsIter).offset ≤
      ([82, 67, 70, 83, 1, 0, 1, 0, 1, 0, 97, 1, 0, 0, 0, 5] : List Nat).length ∧
    (∃ nOff nLen, (⟨8, 1⟩ : Bootfs.BootfsIter).offset ≤ nOff ∧
      nOff + nLen ≤ ([82, 67, 70, 83, 1, 0, 1, 0, 1, 0, 97, 1, 0, 0, 0, 5] : List Nat).length ∧
      Bootfs.decodeUtf8 ((([82, 67, 70, 83, 1, 0, 1, 0, 1, 0, 97, 1, 0, 0, 0, 5] :
        List Nat).drop nOff).take nLen) =
        some (Bootfs.BootfsEntry.mk [97] [5]).name) ∧
    (∃ dOff dLen, (⟨8, 1⟩ : Bootfs.BootfsIter).offset ≤ dOff ∧
      dOff + dLen ≤ ([82, 67, 70, 83, 1, 0, 1, 0, 1, 0, 97, 1, 0, 0, 0, 5] : List Nat).length ∧
      (Bootfs.BootfsEntry.mk [97] [5]).data =
        ((([82, 67, 70, 83, 1, 0, 1, 0, 1, 0, 97, 1, 0, 0, 0, 5] :
          List Nat).drop dOff).take dLen)) :=
  C2_bootfs_iter_safety.2.1 [82, 67, 70, 83, 1, 0, 1, 0, 1, 0, 97, 1, 0, 0, 0, 5]
    ⟨8, 1⟩ (Bootfs.BootfsEntry.mk [97] [5]) ⟨16, 0⟩ (by decide)

/-- **C7.** For EVERY sequence of `register` calls followed by `run()` —
refused registrations included — on tasks that do not re-register
themselves (modelled by opaque entry identifiers): the entries whose
registration succeeded (returned an id) are executed in exactly their
registration order, each exactly once, and refused entries are not
executed; `run()` returns with the queue empty; and `register` returns
`none` exactly when the would-be-new tail index equals the head
index. -/
theorem C7_scheduler_fifo (es : List Nat) :
    (Scheduler.run (Scheduler.pushAll Scheduler.ReadyQueue.new es).2).1.map
        Scheduler.TaskControlBlock.entry =
      Scheduler.acceptedEntries es (Scheduler.pushAll Scheduler.ReadyQueue.new es).1 ∧
    Scheduler.qSize (Scheduler.run (Scheduler.pushAll Scheduler.ReadyQueue.new es).2).2 = 0 ∧
    (∀ (q : Scheduler.ReadyQueue) (e : Nat),
      q.push e = none ↔ (q.tail + 1) % Scheduler.MAX_TASKS = q.head) := by
  obtain ⟨ts2, hwf, habs, hent⟩ := Scheduler.pushAll_spec es Scheduler.ReadyQueue.new []
    Scheduler.SWF_new (by rw [Scheduler.absTasks_new]; rfl)
  simp only [List.nil_append] at habs
  have hlen : ts2.length < 16 := by
    have hl := Scheduler.absTasks_length (Scheduler.pushAll Scheduler.ReadyQueue.new es).2
    rw [habs, List.length_map] at hl
    have hq : Scheduler.qSize (Scheduler.pushAll Scheduler.ReadyQueue.new es).2 < 16 := by
      unfold Scheduler.qSize
      unfold Scheduler.MAX_TASKS
      omega
    omega
  obtain ⟨hrun1, hrun2⟩ :=
    Scheduler.runLoop_drains ts2 16 (Scheduler.pushAll Scheduler.ReadyQueue.new es).2
      hwf habs hlen
  refine ⟨?_, hrun2, Scheduler.push_none_iff⟩
  show (Scheduler.runLoop 16 (Scheduler.pushAll Scheduler.ReadyQueue.new es).2).1.map
    Scheduler.TaskControlBlock.entry =
    Scheduler.acceptedEntries es (Scheduler.pushAll Scheduler.ReadyQueue.new es).1
  rw [hrun1, List.map_map, ← hent]
  rfl

/-- Concrete instance of C7 with a refusal: of 16 registrations on the
15-capacity ring the 16th is refused, and `run` executes exactly the 15
accepted entries in order. -/
theorem C7_scheduler_fifo_witness :
    ((Scheduler.run (Scheduler.pushAll Scheduler.ReadyQueue.new (List.range 16)).2).1.map
          Scheduler.TaskControlBlock.entry =
        Scheduler.acceptedEntries (List.range 16)
          (Scheduler.pushAll Scheduler.ReadyQueue.new (List.range 16)).1 ∧
      Scheduler.qSize
        (Scheduler.run (Scheduler.pushAll Scheduler.ReadyQueue.new (List.range 16)).2).2 = 0) ∧
    (Scheduler.pushAll Scheduler.ReadyQueue.new (List.range 16)).1.getLast? = some none ∧
    Scheduler.acceptedEntries (List.range 16)
      (Scheduler.pushAll Scheduler.ReadyQueue.new (List.range 16)).1 = List.range 15 :=
  ⟨⟨(C7_scheduler_fifo (List.range 16)).1, (C7_scheduler_fifo (List.range 16)).2.1⟩,
   by decide, by decide⟩

/-- **C10.** `BootInfo::is_compatible` depends only on the `version`
field: it returns `true` exactly when `version = BOOTINFO_VERSION`, so a
handoff record carrying version 1 and non-zero `flags` — which the layout
declares must be zero — is still accepted as compatible. -/
theorem C10_is_compatible_ignores_flags :
    (∀ b : Bootproto.BootInfo,
      b.is_compatible = decide (b.version = Bootproto.BOOTINFO_VERSION)) ∧
    Bootproto.BootInfo.is_compatible
      ⟨1, 7, 0, ⟨0, 0⟩, 0, ⟨0, 0⟩, List.replicate 32 0⟩ = true := by
  refine ⟨fun b => ?_, by decide⟩
  unfold Bootproto.BootInfo.is_compatible Bootproto.BOOTINFO_VERSION
  by_cases h : b.version = 1 <;> simp [h]

/-- **C8.** Immediately after `SpinLock::lock` the interrupt flag reads
false, and dropping the guard in any state where the flag is still
disabled (which it is while the guard is live, since critical sections
never re-enable interrupts) restores exactly the pre-lock reading.  The
nested case is the instance where the outer lock had already disabled
interrupts: the inner guard records a disabled flag and its drop keeps
interrupts off. -/
theorem C8_lock_restores_interrupt_flag (c : Arch.Cpu) :
    Arch.interrupts_enabled (Sync.lock c).2 = false ∧
    (∀ c' : Arch.Cpu, Arch.interrupts_enabled c' = false →
      Arch.interrupts_enabled (Sync.guardDrop (Sync.lock c).1 c') =
        Arch.interrupts_enabled c) := by
  constructor
  · cases hc : c.intf <;>
      simp [Sync.lock, Arch.interrupts_enabled, Arch.disable_interrupts, hc]
  · intro c' h
    cases hc : c.intf <;>
      simp_all [Sync.lock, Sync.guardDrop, Arch.interrupts_enabled,
        Arch.enable_interrupts, Arch.disable_interrupts, hc]

/-- Witness for C8 at a concrete CPU state: locking with interrupts
enabled, then dropping the guard while they are disabled, reads back
`true`. -/
theorem C8_lock_restores_interrupt_flag_witness :
    Arch.interrupts_enabled (Sync.lock ⟨true⟩).2 = false ∧
    Arch.interrupts_enabled (Sync.guardDrop (Sync.lock ⟨true⟩).1 ⟨false⟩) =
      Arch.interrupts_enabled ⟨true⟩ :=
  ⟨(C8_lock_restores_interrupt_flag ⟨true⟩).1,
   (C8_lock_restores_interrupt_flag ⟨true⟩).2 ⟨false⟩ rfl⟩

/-- **C9 counterexample.** In both handlers the registered callback is
dispatched strictly BEFORE the handler acknowledges the interrupt
controller, refuting the claim that the callback is invoked after the
acknowledgment. -/
theorem C9_callback_precedes_ack_counterexample :
    List.indexOf Arch.TrapEvent.timer_callback (Arch.timer_trap true) <
      List.indexOf Arch.TrapEvent.ack_timer (Arch.timer_trap true) ∧
    List.indexOf Arch.TrapEvent.ipc_callback (Arch.ipc_trap true) <
      List.indexOf Arch.TrapEvent.ack_ipc (Arch.ipc_trap true) := by
  decide

/-- **C9 (amended).** The timer handler increments the tick counter before
dispatching the registered callback; in both handlers the callback is
invoked BEFORE the handler acknowledges the interrupt controller, and the
acknowledgment is the final event. -/
theorem C9_tick_then_callback_then_ack :
    (∀ registered : Bool,
      (Arch.timer_trap registered).headD Arch.TrapEvent.ack_timer =
        Arch.TrapEvent.tick_increment) ∧
    Arch.timer_trap true =
      [Arch.TrapEvent.tick_increment, Arch.TrapEvent.timer_callback, Arch.TrapEvent.ack_timer] ∧
    Arch.ipc_trap true = [Arch.TrapEvent.ipc_callback, Arch.TrapEvent.ack_ipc] := by
  decide

/-- **C5.** `release_frame` succeeds exactly when the frame number is in
range and the slot is `Reserved`, in which case only that slot flips to
`Free`; on failure (double free or out-of-range) the allocator state is
returned unchanged, and no case panics (the function is total). -/
theorem C5_release_frame_spec (a : Memory.FrameAllocator) (f : Nat) :
    ((a.release_frame f).1 = true ↔
      f < Memory.TOTAL_FRAMES ∧
        a.map.getD f Memory.FrameState.Free = Memory.FrameState.Reserved) ∧
    ((a.release_frame f).1 = true →
      (a.release_frame f).2 =
        ⟨a.map.set f Memory.FrameState.Free, a.next_search_idx⟩) ∧
    ((a.release_frame f).1 = false → (a.release_frame f).2 = a) := by
  unfold Memory.FrameAllocator.release_frame
  split_ifs with h
  · simp [Nat.lt_of_not_le, h]
  · cases hm : a.map.getD f Memory.FrameState.Free <;>
      simp [hm, Nat.lt_of_not_le (by omega : ¬ f ≥ Memory.TOTAL_FRAMES)]

/-- Witness for C5: releasing boot-reserved frame 2 right after
`memory::init(None)` succeeds and flips exactly that slot. -/
theorem C5_release_frame_spec_witness :
    (Memory.initNoHandoff.release_frame 2).2 =
      ⟨Memory.initNoHandoff.map.set 2 Memory.FrameState.Free,
        Memory.initNoHandoff.next_search_idx⟩ :=
  (C5_release_frame_spec Memory.initNoHandoff 2).2.1 (by decide)

/-- **C4.** After `memory::init(None)` (128 frames, the 4 low frames
reserved), 124 successive `allocate_frame` calls all succeed with pairwise
distinct frame numbers, the 125th returns `none`, and after one successful
`release_frame` the next allocation succeeds again. -/
theorem C4_allocator_exhaustion :
    (∀ r ∈ (Memory.allocN Memory.initNoHandoff 124).1, r.isSome) ∧
    ((Memory.allocN Memory.initNoHandoff 124).1.filterMap id).Nodup ∧
    (Memory.allocN Memory.initNoHandoff 124).2.allocate_frame = none ∧
    ((Memory.allocN Memory.initNoHandoff 124).2.release_frame 10).1 = true ∧
    (((Memory.allocN Memory.initNoHandoff 124).2.release_frame 10).2.allocate_frame).isSome := by
  decide

end Rustcore
